import Mathlib

/-!
Verification of the bio-analysis repository: a shallow embedding in Lean 4 of
the crypto core (src/services/pdfExportService.ts crypto section), the
encrypted storage layer (src/services/encryptedStorage.ts), the PDF layout
extractor and biochemistry parser (src/services/patientHistory.ts), and the
analysis utilities (src/utils/analysisUtils.ts), together with theorems
settling the specification claims.

Browser built-ins (Web Crypto AES-GCM / PBKDF2, TextEncoder/TextDecoder,
JSON.stringify/parse) are external primitives, not repository code; they are
modelled as abstract parameter structures, and theorems take their documented
contracts (e.g. authenticated decryption inverts encryption under the same
key) as hypotheses.  Bytes are `Nat`, byte buffers are `List Nat`, JS numbers
reachable in the verified paths are exact, so they are modelled as `ℚ`.
-/

namespace Bio

/-- Abstract model of the browser Web Crypto primitives used by the code:
PBKDF2-HMAC-SHA256 key derivation, AES-256-GCM encryption/decryption (the
decryption is fallible: the authentication tag may not verify), and the
UTF-8 text codec. -/
structure CryptoPrims where
  Key : Type
  pbkdf2 : String → List Nat → Nat → Key
  gcmEncrypt : Key → List Nat → List Nat → List Nat
  gcmDecrypt : Key → List Nat → List Nat → Option (List Nat)
  utf8Encode : String → List Nat
  utf8Decode : List Nat → String

/-- Source constant PBKDF2_ITERATIONS (pdfExportService.ts). -/
def PBKDF2_ITERATIONS : Nat := 100000

/-- Source constant SALT_LENGTH (16 bytes). -/
def SALT_LENGTH : Nat := 16

/-- Source constant IV_LENGTH (12 bytes). -/
def IV_LENGTH : Nat := 12

/-- Embedding of deriveKey: PBKDF2 with the fixed iteration count. -/
def deriveKey (M : CryptoPrims) (pin : String) (salt : List Nat) : M.Key :=
  M.pbkdf2 pin salt PBKDF2_ITERATIONS

/-- The `ArrayBuffer | string` argument type of encrypt. -/
inductive PlainData where
  | bytes (b : List Nat)
  | str (s : String)

/-- The plaintext bytes encrypt actually feeds to AES-GCM (the
`typeof data === "string"` branch runs the data through TextEncoder). -/
def PlainData.toBytes (M : CryptoPrims) : PlainData → List Nat
  | .bytes b => b
  | .str s => M.utf8Encode s

/-- Embedding of encrypt.  The fresh random salt and IV drawn by
`crypto.getRandomValues` are explicit arguments; the result is the blob
`salt ++ iv ++ ciphertext`. -/
def encrypt (M : CryptoPrims) (data : PlainData) (pin : String)
    (salt iv : List Nat) : List Nat :=
  let key := deriveKey M pin salt
  let plaintext := data.toBytes M
  let ciphertext := M.gcmEncrypt key iv plaintext
  salt ++ iv ++ ciphertext

/-- Embedding of decrypt: split the blob at the fixed offsets
(salt = bytes 0..15, iv = bytes 16..27, ciphertext = rest), re-derive the
key, and run authenticated decryption (`none` = DecryptionError thrown). -/
def decrypt (M : CryptoPrims) (encryptedData : List Nat) (pin : String) :
    Option (List Nat) :=
  let salt := encryptedData.take SALT_LENGTH
  let iv := (encryptedData.drop SALT_LENGTH).take IV_LENGTH
  let ciphertext := encryptedData.drop (SALT_LENGTH + IV_LENGTH)
  M.gcmDecrypt (deriveKey M pin salt) iv ciphertext

/-- Embedding of decryptToString (decrypt then TextDecoder.decode). -/
def decryptToString (M : CryptoPrims) (encryptedData : List Nat)
    (pin : String) : Option String :=
  (decrypt M encryptedData pin).map M.utf8Decode

/-- The fixed literal marker of createPinVerification. -/
def pinMarker : String := "BIO_ANALYSIS_PIN_OK"

/-- Embedding of createPinVerification: encrypt the fixed marker. -/
def createPinVerification (M : CryptoPrims) (pin : String)
    (salt iv : List Nat) : List Nat :=
  encrypt M (.str pinMarker) pin salt iv

/-- Embedding of verifyPin: attempt decryption; true only when it succeeds
and the decrypted text equals the marker; a decryption failure is caught
and collapses to false. -/
def verifyPin (M : CryptoPrims) (pin : String) (verificationToken : List Nat) :
    Bool :=
  match decryptToString M verificationToken pin with
  | some decrypted => decide (decrypted = pinMarker)
  | none => false

/-- Helper: with a GCM model in which decryption under the same key and IV
inverts encryption, decrypt recovers the exact plaintext bytes from an
encrypt blob built with a 16-byte salt and a 12-byte IV. -/
theorem decrypt_encrypt (M : CryptoPrims)
    (hgcm : ∀ k iv p, M.gcmDecrypt k iv (M.gcmEncrypt k iv p) = some p)
    (data : PlainData) (pin : String) (salt iv : List Nat)
    (hs : salt.length = SALT_LENGTH) (hiv : iv.length = IV_LENGTH) :
    decrypt M (encrypt M data pin salt iv) pin = some (data.toBytes M) := by
  unfold decrypt encrypt
  have h1 : (salt ++ (iv ++ M.gcmEncrypt (deriveKey M pin salt) iv
      (data.toBytes M))).take SALT_LENGTH = salt := by
    rw [← hs]; exact List.take_left _ _
  have h2 : (salt ++ (iv ++ M.gcmEncrypt (deriveKey M pin salt) iv
      (data.toBytes M))).drop SALT_LENGTH = iv ++ M.gcmEncrypt
      (deriveKey M pin salt) iv (data.toBytes M) := by
    rw [← hs]; exact List.drop_left _ _
  have h3 : (iv ++ M.gcmEncrypt (deriveKey M pin salt) iv
      (data.toBytes M)).take IV_LENGTH = iv := by
    rw [← hiv]; exact List.take_left _ _
  have h4 : (iv ++ M.gcmEncrypt (deriveKey M pin salt) iv
      (data.toBytes M)).drop IV_LENGTH = M.gcmEncrypt
      (deriveKey M pin salt) iv (data.toBytes M) := by
    rw [← hiv]; exact List.drop_left _ _
  simp only [List.append_assoc, h1, ← List.drop_drop, h2, h3, h4]
  exact hgcm _ _ _

/-- Helper: the extracted-salt component of a well-formed blob. -/
theorem decrypt_wrong_key (M : CryptoPrims)
    (hrej : ∀ k kBad iv p, k ≠ kBad →
      M.gcmDecrypt kBad iv (M.gcmEncrypt k iv p) = none)
    (data : PlainData) (pin pinBad : String) (salt iv : List Nat)
    (hs : salt.length = SALT_LENGTH) (hiv : iv.length = IV_LENGTH)
    (hkeys : deriveKey M pin salt ≠ deriveKey M pinBad salt) :
    decrypt M (encrypt M data pin salt iv) pinBad = none := by
  unfold decrypt encrypt
  have h1 : (salt ++ (iv ++ M.gcmEncrypt (deriveKey M pin salt) iv
      (data.toBytes M))).take SALT_LENGTH = salt := by
    rw [← hs]; exact List.take_left _ _
  have h2 : (salt ++ (iv ++ M.gcmEncrypt (deriveKey M pin salt) iv
      (data.toBytes M))).drop SALT_LENGTH = iv ++ M.gcmEncrypt
      (deriveKey M pin salt) iv (data.toBytes M) := by
    rw [← hs]; exact List.drop_left _ _
  have h3 : (iv ++ M.gcmEncrypt (deriveKey M pin salt) iv
      (data.toBytes M)).take IV_LENGTH = iv := by
    rw [← hiv]; exact List.take_left _ _
  have h4 : (iv ++ M.gcmEncrypt (deriveKey M pin salt) iv
      (data.toBytes M)).drop IV_LENGTH = M.gcmEncrypt
      (deriveKey M pin salt) iv (data.toBytes M) := by
    rw [← hiv]; exact List.drop_left _ _
  simp only [List.append_assoc, h1, ← List.drop_drop, h2, h3, h4]
  exact hrej _ _ _ _ hkeys

/-- Claim C1: for every plaintext byte sequence P and every non-empty PIN
string K, decrypt(encrypt(P, K), K) returns exactly P, where encrypt lays
the blob out as a fresh 16-byte salt, then a fresh 12-byte IV, then the
AES-256-GCM ciphertext, and decrypt splits the blob at those fixed offsets
and re-derives the key via PBKDF2-HMAC-SHA256 with 100,000 iterations
(the layout, offsets and iteration constant are part of the definitions of
encrypt, decrypt and deriveKey; the GCM contract is the hypothesis). -/
theorem C1_encrypt_decrypt_roundtrip (M : CryptoPrims)
    (hgcm : ∀ k iv p, M.gcmDecrypt k iv (M.gcmEncrypt k iv p) = some p)
    (P : List Nat) (K : String) (hK : K ≠ "")
    (salt iv : List Nat)
    (hs : salt.length = SALT_LENGTH) (hiv : iv.length = IV_LENGTH) :
    decrypt M (encrypt M (.bytes P) K salt iv) K = some P :=
  decrypt_encrypt M hgcm (.bytes P) K salt iv hs hiv

/-- Concrete instantiation of the crypto primitives used by the witnesses:
keys are byte lists, the ciphertext is the plaintext tagged with an
injective code of the key/IV pair, and decryption rejects any other key. -/
def toyPrims : CryptoPrims where
  Key := List Nat
  pbkdf2 := fun pin salt iters => iters :: (salt ++ pin.toList.map Char.toNat)
  gcmEncrypt := fun k iv p => Encodable.encode (k, iv) :: p
  gcmDecrypt := fun k iv ct =>
    match ct with
    | [] => none
    | t :: rest => if t = Encodable.encode (k, iv) then some rest else none
  utf8Encode := fun s => s.toList.map Char.toNat
  utf8Decode := fun bs => String.mk (bs.map Char.ofNat)

/-- The toy primitives satisfy the GCM round-trip contract. -/
theorem toy_gcm_roundtrip :
    ∀ k iv p, toyPrims.gcmDecrypt k iv (toyPrims.gcmEncrypt k iv p) = some p := by
  intro k iv p
  simp [toyPrims]

/-- The toy primitives reject decryption under a different key. -/
theorem toy_gcm_reject : ∀ k kBad iv p, k ≠ kBad →
    toyPrims.gcmDecrypt kBad iv (toyPrims.gcmEncrypt k iv p) = none := by
  intro k kBad iv p hne
  simp only [toyPrims]
  rw [if_neg]
  intro hc
  exact hne (congrArg Prod.fst (Encodable.encode_injective hc))

/-- Witness for C1: the round-trip theorem applied to a concrete plaintext,
PIN, salt and IV under the toy primitives. -/
theorem C1_witness :
    decrypt toyPrims
      (encrypt toyPrims (.bytes [1, 2, 3]) "7" (List.replicate 16 0)
        (List.replicate 12 0)) "7" = some [1, 2, 3] :=
  C1_encrypt_decrypt_roundtrip toyPrims toy_gcm_roundtrip [1, 2, 3] "7"
    (by decide) (List.replicate 16 0) (List.replicate 12 0)
    (by simp [SALT_LENGTH]) (by simp [IV_LENGTH])

/-- Claim C5: verifyPin accepts the token created for the same PIN, rejects
a token created for a different PIN (different PINs deriving different keys,
AES-GCM rejecting a wrong key), and on every token it is a total boolean
returning true exactly when decryption succeeds with the literal marker as
the decrypted text — decryption failure collapses to false. -/
theorem C5_verifyPin (M : CryptoPrims)
    (hgcm : ∀ k iv p, M.gcmDecrypt k iv (M.gcmEncrypt k iv p) = some p)
    (hrej : ∀ k kBad iv p, k ≠ kBad →
      M.gcmDecrypt kBad iv (M.gcmEncrypt k iv p) = none)
    (hmark : M.utf8Decode (M.utf8Encode pinMarker) = pinMarker)
    (K K1 K2 : String) (h12 : K1 ≠ K2) (salt iv : List Nat)
    (hs : salt.length = SALT_LENGTH) (hiv : iv.length = IV_LENGTH)
    (hkeys : deriveKey M K1 salt ≠ deriveKey M K2 salt) :
    verifyPin M K (createPinVerification M K salt iv) = true
    ∧ verifyPin M K2 (createPinVerification M K1 salt iv) = false
    ∧ ∀ token pin, (verifyPin M pin token = true
        ↔ decryptToString M token pin = some pinMarker) := by
  refine ⟨?_, ?_, ?_⟩
  · unfold verifyPin decryptToString createPinVerification
    rw [decrypt_encrypt M hgcm _ K salt iv hs hiv]
    simp [PlainData.toBytes, hmark]
  · unfold verifyPin decryptToString createPinVerification
    rw [decrypt_wrong_key M hrej _ K1 K2 salt iv hs hiv hkeys]
    rfl
  · intro token pin
    unfold verifyPin
    cases h : decryptToString M token pin with
    | none => simp
    | some d => simp [h]

/-- Toy UTF-8 codec round-trip: decoding an encoded string gives it back. -/
theorem toy_utf8_roundtrip (s : String) :
    toyPrims.utf8Decode (toyPrims.utf8Encode s) = s := by
  show String.mk (List.map Char.ofNat (s.toList.map Char.toNat)) = s
  rw [List.map_map]
  have : (Char.ofNat ∘ Char.toNat) = id := by
    funext c; exact Char.ofNat_toNat c
  rw [this, List.map_id]
  cases s
  rfl

/-- Witness for C5: the verifyPin theorem applied to concrete PINs, salt and
IV under the toy primitives. -/
theorem C5_witness :
    verifyPin toyPrims "1234"
      (createPinVerification toyPrims "1234" (List.replicate 16 0)
        (List.replicate 12 0)) = true
    ∧ verifyPin toyPrims "5678"
      (createPinVerification toyPrims "1234" (List.replicate 16 0)
        (List.replicate 12 0)) = false
    ∧ ∀ token pin, (verifyPin toyPrims pin token = true
        ↔ decryptToString toyPrims token pin = some pinMarker) :=
  C5_verifyPin toyPrims toy_gcm_roundtrip toy_gcm_reject
    (by decide) "1234" "1234" "5678" (by decide)
    (List.replicate 16 0) (List.replicate 12 0)
    (by simp [SALT_LENGTH]) (by simp [IV_LENGTH])
    (by simp [deriveKey, toyPrims])

/-! ## Data model (src/types/index.ts) -/

/-- Trend annotation of a displayed value. -/
inductive Trend where
  | up
  | down
  | stable
deriving DecidableEq, Repr

/-- FileItem metadata record.  JS numbers reachable here are exact, modelled
as rationals; the optional legacy base64 payload is an optional string. -/
structure FileItem where
  id : String
  name : String
  size : ℚ
  type : String
  lastModified : ℚ
  data : Option String := none
deriving DecidableEq, Repr

/-- BiochemistryValue: persisted/display form of one measurement.  A bound
is `none` when the field is undefined and `some none` when it is set to the
JS value NaN (a failed parseFloat). -/
structure BiochemistryValue where
  value : Option ℚ
  unit : String
  normalRange : Option String := none
  normalMin : Option (Option ℚ) := none
  normalMax : Option (Option ℚ) := none
  isAbnormal : Bool
  trend : Option Trend := none
deriving DecidableEq, Repr

/-- PatientAnalysis: one imported report's outcome; biochemistryData is the
keyed map, modelled as an insertion-ordered association list. -/
structure PatientAnalysis where
  id : String
  date : String
  timestamp : ℚ
  fileName : String
  biochemistryData : List (String × BiochemistryValue)
deriving DecidableEq, Repr

/-! ## Encrypted storage layer (src/services/encryptedStorage.ts), with the
plain legacy stores (src/services/fileStorage.ts, patientHistory.ts storage
section) it migrates from. -/

/-- Abstract model of JSON.stringify / JSON.parse restricted to the two
structured types the store serializes (`JSON.parse` throwing or producing
the wrong shape is `none`). -/
structure JsonCodec where
  serFileItems : List FileItem → String
  deserFileItems : String → Option (List FileItem)
  serAnalyses : List PatientAnalysis → String
  deserAnalyses : String → Option (List PatientAnalysis)

/-- Embedding of encryptJSON at the file-index type. -/
def encryptJSONFiles (M : CryptoPrims) (J : JsonCodec) (files : List FileItem)
    (pin : String) (salt iv : List Nat) : List Nat :=
  encrypt M (.str (J.serFileItems files)) pin salt iv

/-- Embedding of decryptJSON at the file-index type. -/
def decryptJSONFiles (M : CryptoPrims) (J : JsonCodec) (blob : List Nat)
    (pin : String) : Option (List FileItem) :=
  (decryptToString M blob pin).bind J.deserFileItems

/-- Embedding of encryptJSON at the analysis-history type. -/
def encryptJSONAnalyses (M : CryptoPrims) (J : JsonCodec)
    (analyses : List PatientAnalysis) (pin : String) (salt iv : List Nat) :
    List Nat :=
  encrypt M (.str (J.serAnalyses analyses)) pin salt iv

/-- Embedding of decryptJSON at the analysis-history type. -/
def decryptJSONAnalyses (M : CryptoPrims) (J : JsonCodec) (blob : List Nat)
    (pin : String) : Option (List PatientAnalysis) :=
  (decryptToString M blob pin).bind J.deserAnalyses

/-- A value of the plain (legacy) pdf_files store: the metadata index under
"file_index", or raw PDF bytes under a "file_data_(id)" key. -/
inductive PlainFileVal where
  | index (files : List FileItem)
  | buf (b : List Nat)
deriving DecidableEq

/-- The persisted IndexedDB state: the three encrypted localforage stores
(encrypted_files, encrypted_history, encrypted_settings) each map keys to
encrypted blobs, and the two legacy plain stores (pdf_files,
patient_history). -/
structure StoreState where
  encFiles : String → Option (List Nat)
  encHistory : String → Option (List Nat)
  encSettings : String → Option (List Nat)
  plainFiles : String → Option PlainFileVal
  plainHistory : String → Option (List PatientAnalysis)

/-- localforage setItem on one key/value map. -/
def setKeyMap {α : Type} (m : String → Option α) (k : String) (v : α) :
    String → Option α :=
  fun q => if q = k then some v else m q

/-- localforage removeItem on one key/value map. -/
def removeKeyMap {α : Type} (m : String → Option α) (k : String) :
    String → Option α :=
  fun q => if q = k then none else m q

/-- Source constant FILE_INDEX_KEY of the encrypted store. -/
def FILE_INDEX_KEY : String := "file_index_enc"

/-- Source constant PDF_PASSWORD_KEY. -/
def PDF_PASSWORD_KEY : String := "pdf_password_enc"

/-- Key of the encrypted history blob of one patient (getHistoryKey in
encryptedStorage.ts). -/
def getHistoryKeyEnc (patientId : String) : String :=
  "history_enc_" ++ patientId

/-- Key of the plain legacy history of one patient (getHistoryKey in
patientHistory.ts). -/
def getHistoryKeyPlain (patientId : String) : String :=
  "history_" ++ patientId

/-- Source constant FILE_INDEX_KEY of the plain legacy file store. -/
def PLAIN_FILE_INDEX_KEY : String := "file_index"

/-- A browser File object as the store ops consume it: name, MIME type,
size and lastModified metadata, and the byte content. -/
structure BrowserFile where
  name : String
  size : ℚ
  type : String
  lastModified : ℚ
  content : List Nat
deriving DecidableEq

/-- Embedding of getEncryptedFileIndex: absent blob gives the empty index,
and a decryption/parse failure is caught and also gives the empty index. -/
def getEncryptedFileIndex (M : CryptoPrims) (J : JsonCodec) (pin : String)
    (s : StoreState) : List FileItem :=
  match s.encFiles FILE_INDEX_KEY with
  | none => []
  | some encrypted => (decryptJSONFiles M J encrypted pin).getD []

/-- Embedding of saveEncryptedFileIndex. -/
def saveEncryptedFileIndex (M : CryptoPrims) (J : JsonCodec)
    (files : List FileItem) (pin : String) (r : List Nat × List Nat)
    (s : StoreState) : StoreState :=
  { s with encFiles := (setKeyMap s.encFiles FILE_INDEX_KEY
      (encryptJSONFiles M J files pin r.1 r.2)) }

/-- Embedding of saveFileEncrypted.  The generated id (Date.now().toString())
and the two fresh salt/IV pairs are explicit arguments. -/
def saveFileEncrypted (M : CryptoPrims) (J : JsonCodec) (file : BrowserFile)
    (pin newId : String) (r1 r2 : List Nat × List Nat) (s : StoreState) :
    StoreState :=
  let encryptedData := encrypt M (.bytes file.content) pin r1.1 r1.2
  let files := getEncryptedFileIndex M J pin s
  let newFile : FileItem :=
    ⟨newId, file.name, file.size, file.type, file.lastModified, none⟩
  let s1 : StoreState :=
    { s with encFiles := (setKeyMap s.encFiles ("file_enc_" ++ newFile.id)
        encryptedData) }
  saveEncryptedFileIndex M J (files ++ [newFile]) pin r2 s1

/-- Embedding of getFilesEncrypted. -/
def getFilesEncrypted (M : CryptoPrims) (J : JsonCodec) (pin : String)
    (s : StoreState) : List FileItem :=
  getEncryptedFileIndex M J pin s

/-- Embedding of deleteFileEncrypted. -/
def deleteFileEncrypted (M : CryptoPrims) (J : JsonCodec)
    (fileName pin : String) (r : List Nat × List Nat) (s : StoreState) :
    StoreState :=
  let files := getEncryptedFileIndex M J pin s
  let s1 : StoreState :=
    match files.find? (fun f => f.name = fileName) with
    | some fileToDelete =>
        { s with encFiles := (removeKeyMap s.encFiles
            ("file_enc_" ++ fileToDelete.id)) }
    | none => s
  saveEncryptedFileIndex M J (files.filter (fun f => f.name ≠ fileName)) pin
    r s1

/-- Embedding of getFileEncrypted: the decrypted File (name, fixed
"application/pdf" type, content), or null when the name is not indexed,
the item blob is absent, or its decryption fails. -/
def getFileEncrypted (M : CryptoPrims) (J : JsonCodec)
    (fileName pin : String) (s : StoreState) : Option (List Nat × String) :=
  let files := getEncryptedFileIndex M J pin s
  match files.find? (fun f => f.name = fileName) with
  | none => none
  | some fileData =>
    match s.encFiles ("file_enc_" ++ fileData.id) with
    | none => none
    | some encryptedBuffer =>
      match decrypt M encryptedBuffer pin with
      | some decryptedBuffer => some (decryptedBuffer, fileData.name)
      | none => none

/-- Embedding of getPatientHistoryEncrypted: absent blob or failed
decryption both give the empty history. -/
def getPatientHistoryEncrypted (M : CryptoPrims) (J : JsonCodec)
    (patientId pin : String) (s : StoreState) : List PatientAnalysis :=
  match s.encHistory (getHistoryKeyEnc patientId) with
  | none => []
  | some encrypted => (decryptJSONAnalyses M J encrypted pin).getD []

/-- Embedding of saveAnalysisEncrypted: re-read the history, push the new
analysis, re-encrypt and overwrite the patient's blob. -/
def saveAnalysisEncrypted (M : CryptoPrims) (J : JsonCodec)
    (patientId : String) (analysis : PatientAnalysis) (pin : String)
    (r : List Nat × List Nat) (s : StoreState) : StoreState :=
  let history := getPatientHistoryEncrypted M J patientId pin s
  { s with encHistory := (setKeyMap s.encHistory (getHistoryKeyEnc patientId)
      (encryptJSONAnalyses M J (history ++ [analysis]) pin r.1 r.2)) }

/-- Embedding of deleteAnalysisEncrypted. -/
def deleteAnalysisEncrypted (M : CryptoPrims) (J : JsonCodec)
    (patientId analysisId pin : String) (r : List Nat × List Nat)
    (s : StoreState) : StoreState :=
  let history := getPatientHistoryEncrypted M J patientId pin s
  let filtered := history.filter (fun a => a.id ≠ analysisId)
  { s with encHistory := (setKeyMap s.encHistory (getHistoryKeyEnc patientId)
      (encryptJSONAnalyses M J filtered pin r.1 r.2)) }

/-- Embedding of savePdfPasswordEncrypted. -/
def savePdfPasswordEncrypted (M : CryptoPrims) (pdfPassword pin : String)
    (r : List Nat × List Nat) (s : StoreState) : StoreState :=
  { s with encSettings := (setKeyMap s.encSettings PDF_PASSWORD_KEY
      (encrypt M (.str pdfPassword) pin r.1 r.2)) }

/-- Embedding of loadPdfPasswordEncrypted: null when nothing is stored or
the decryption fails. -/
def loadPdfPasswordEncrypted (M : CryptoPrims) (pin : String)
    (s : StoreState) : Option String :=
  match s.encSettings PDF_PASSWORD_KEY with
  | none => none
  | some encrypted => (decrypt M encrypted pin).map M.utf8Decode

/-- Embedding of getFileIndex/getFilesFromStorage of the plain legacy
store (the "file_index" key only ever holds an index value). -/
def getFilesFromStorage (s : StoreState) : List FileItem :=
  match s.plainFiles PLAIN_FILE_INDEX_KEY with
  | some (.index files) => files
  | _ => []

/-- Embedding of getFileFromStorage: rebuilds a File from the stored bytes.
The browser File constructor stamps the current time; that clock value is
the explicit `now` argument, and the File size is the byte length. -/
def getFileFromStorage (fileName : String) (now : ℚ) (s : StoreState) :
    Option BrowserFile :=
  let files := getFilesFromStorage s
  match files.find? (fun f => f.name = fileName) with
  | none => none
  | some fileData =>
    match s.plainFiles ("file_data_" ++ fileData.id) with
    | some (.buf b) => some ⟨fileData.name, (b.length : ℚ),
        "application/pdf", now, b⟩
    | _ => none

/-- Embedding of getPatientHistory of the plain legacy store. -/
def getPatientHistory (patientId : String) (s : StoreState) :
    List PatientAnalysis :=
  (s.plainHistory (getHistoryKeyPlain patientId)).getD []

/-- The per-file loop of migrateToEncryptedStorage: re-save each readable
legacy file through saveFileEncrypted, consuming one generated id, one
clock value and two salt/IV pairs per migrated file; returns the new state,
the count, and the unconsumed salt/IV supply. -/
def migrateFilesLoop (M : CryptoPrims) (J : JsonCodec) (pin : String) :
    List FileItem → StoreState → List String → List ℚ →
    List (List Nat × List Nat) → Nat →
    StoreState × Nat × List (List Nat × List Nat)
  | [], s, _, _, rnds, n => (s, n, rnds)
  | fileItem :: rest, s, ids, nows, rnds, n =>
    match getFileFromStorage fileItem.name (nows.headD 0) s with
    | some file =>
        migrateFilesLoop M J pin rest
          (saveFileEncrypted M J file pin (ids.headD "") (rnds.headD ([], []))
            (rnds.tail.headD ([], [])) s)
          ids.tail nows.tail rnds.tail.tail (n + 1)
    | none => migrateFilesLoop M J pin rest s ids nows rnds n

/-- Embedding of migrateToEncryptedStorage: migrate legacy files one by
one, clear the legacy file store if any migrated, then re-encrypt the whole
legacy analysis list (overwriting the patient's encrypted blob) and delete
the legacy history if it was non-empty.  Returns the new state and the
(filesMigrated, analysesMigrated) counts. -/
def migrateToEncryptedStorage (M : CryptoPrims) (J : JsonCodec)
    (pin patientId : String) (idSupply : List String) (nowSupply : List ℚ)
    (rndSupply : List (List Nat × List Nat)) (s : StoreState) :
    StoreState × Nat × Nat :=
  let plainFilesList := getFilesFromStorage s
  let step1 := migrateFilesLoop M J pin plainFilesList s idSupply nowSupply
    rndSupply 0
  let s1 := step1.1
  let filesMigrated := step1.2.1
  let rnds1 := step1.2.2
  let s2 := if filesMigrated > 0
    then { s1 with plainFiles := fun _ => none }
    else s1
  let plainAnalyses := getPatientHistory patientId s2
  if plainAnalyses.length > 0 then
    let encrypted := encryptJSONAnalyses M J plainAnalyses pin
      (rnds1.headD ([], [])).1 (rnds1.headD ([], [])).2
    ({ s2 with
        encHistory := (setKeyMap s2.encHistory (getHistoryKeyEnc patientId)
          encrypted),
        plainHistory := (removeKeyMap s2.plainHistory
          (getHistoryKeyPlain patientId)) },
      filesMigrated, plainAnalyses.length)
  else (s2, filesMigrated, 0)

/-! ## Read/write helper lemmas for the encrypted store -/

/-- Reading a patient history whose stored blob was encrypted under the
same PIN decodes back to the stored list. -/
theorem getHistoryEncrypted_of_blob (M : CryptoPrims) (J : JsonCodec)
    (hgcm : ∀ k iv p, M.gcmDecrypt k iv (M.gcmEncrypt k iv p) = some p)
    (patientId pin : String) (l : List PatientAnalysis) (salt iv : List Nat)
    (hs : salt.length = SALT_LENGTH) (hiv : iv.length = IV_LENGTH)
    (hser : J.deserAnalyses (J.serAnalyses l) = some l)
    (hutf : M.utf8Decode (M.utf8Encode (J.serAnalyses l)) = J.serAnalyses l)
    (s : StoreState)
    (hblob : s.encHistory (getHistoryKeyEnc patientId) =
      some (encryptJSONAnalyses M J l pin salt iv)) :
    getPatientHistoryEncrypted M J patientId pin s = l := by
  unfold getPatientHistoryEncrypted
  rw [hblob]
  have hdec := decrypt_encrypt M hgcm (.str (J.serAnalyses l)) pin salt iv hs hiv
  simp [encryptJSONAnalyses, decryptJSONAnalyses, decryptToString, hdec,
    PlainData.toBytes, hutf, hser]

/-- Reading a patient history whose stored blob was encrypted under a PIN
deriving a different key gives the empty list (decryption failure is
swallowed). -/
theorem getHistoryEncrypted_wrong_pin (M : CryptoPrims) (J : JsonCodec)
    (hrej : ∀ k kBad iv p, k ≠ kBad →
      M.gcmDecrypt kBad iv (M.gcmEncrypt k iv p) = none)
    (patientId pin pinBad : String) (l : List PatientAnalysis)
    (salt iv : List Nat)
    (hs : salt.length = SALT_LENGTH) (hiv : iv.length = IV_LENGTH)
    (hkeys : deriveKey M pin salt ≠ deriveKey M pinBad salt)
    (s : StoreState)
    (hblob : s.encHistory (getHistoryKeyEnc patientId) =
      some (encryptJSONAnalyses M J l pin salt iv)) :
    getPatientHistoryEncrypted M J patientId pinBad s = [] := by
  unfold getPatientHistoryEncrypted
  rw [hblob]
  have hdec := decrypt_wrong_key M hrej (.str (J.serAnalyses l)) pin pinBad
    salt iv hs hiv hkeys
  simp [encryptJSONAnalyses, decryptJSONAnalyses, decryptToString, hdec]

/-- Reading a file index whose stored blob was encrypted under the same
PIN decodes back to the stored list. -/
theorem getFileIndex_of_blob (M : CryptoPrims) (J : JsonCodec)
    (hgcm : ∀ k iv p, M.gcmDecrypt k iv (M.gcmEncrypt k iv p) = some p)
    (pin : String) (l : List FileItem) (salt iv : List Nat)
    (hs : salt.length = SALT_LENGTH) (hiv : iv.length = IV_LENGTH)
    (hser : J.deserFileItems (J.serFileItems l) = some l)
    (hutf : M.utf8Decode (M.utf8Encode (J.serFileItems l)) = J.serFileItems l)
    (s : StoreState)
    (hblob : s.encFiles FILE_INDEX_KEY =
      some (encryptJSONFiles M J l pin salt iv)) :
    getEncryptedFileIndex M J pin s = l := by
  unfold getEncryptedFileIndex
  rw [hblob]
  have hdec := decrypt_encrypt M hgcm (.str (J.serFileItems l)) pin salt iv hs hiv
  simp [encryptJSONFiles, decryptJSONFiles, decryptToString, hdec,
    PlainData.toBytes, hutf, hser]

/-- Claim C4: the store-layer read operations never throw on decryption
failure: when the relevant blob is absent or its decryption fails (wrong
PIN, corrupted blob), getPatientHistoryEncrypted and getFilesEncrypted
return the empty list and loadPdfPasswordEncrypted and getFileEncrypted
return null — exactly the values of the no-data case, so the caller cannot
distinguish the two at this layer. -/
theorem C4_reads_fail_closed (M : CryptoPrims) (J : JsonCodec)
    (s : StoreState) (pin patientId fileName : String)
    (hH : s.encHistory (getHistoryKeyEnc patientId) = none ∨
      ∃ blob, s.encHistory (getHistoryKeyEnc patientId) = some blob ∧
        decryptJSONAnalyses M J blob pin = none)
    (hF : s.encFiles FILE_INDEX_KEY = none ∨
      ∃ blob, s.encFiles FILE_INDEX_KEY = some blob ∧
        decryptJSONFiles M J blob pin = none)
    (hP : s.encSettings PDF_PASSWORD_KEY = none ∨
      ∃ blob, s.encSettings PDF_PASSWORD_KEY = some blob ∧
        decrypt M blob pin = none)
    (hFB : ∀ f ∈ getEncryptedFileIndex M J pin s, ∀ blob,
      s.encFiles ("file_enc_" ++ f.id) = some blob →
        decrypt M blob pin = none) :
    getPatientHistoryEncrypted M J patientId pin s = []
    ∧ getFilesEncrypted M J pin s = []
    ∧ loadPdfPasswordEncrypted M pin s = none
    ∧ getFileEncrypted M J fileName pin s = none := by
  have hHist : getPatientHistoryEncrypted M J patientId pin s = [] := by
    unfold getPatientHistoryEncrypted
    rcases hH with h | ⟨blob, hb, hd⟩
    · simp [h]
    · simp [hb, hd]
  have hIdx : getFilesEncrypted M J pin s = [] := by
    unfold getFilesEncrypted getEncryptedFileIndex
    rcases hF with h | ⟨blob, hb, hd⟩
    · simp [h]
    · simp [hb, hd]
  refine ⟨hHist, hIdx, ?_, ?_⟩
  · unfold loadPdfPasswordEncrypted
    rcases hP with h | ⟨blob, hb, hd⟩
    · simp [h]
    · simp [hb, hd]
  · simp only [getFileEncrypted]
    cases hfind : (getEncryptedFileIndex M J pin s).find?
        (fun f => f.name = fileName) with
    | none => simp [hfind]
    | some fd =>
      have hmem : fd ∈ getEncryptedFileIndex M J pin s :=
        List.mem_of_find?_eq_some hfind
      cases hblob : s.encFiles ("file_enc_" ++ fd.id) with
      | none => simp [hfind, hblob]
      | some blob => simp [hfind, hblob, hFB fd hmem blob hblob]

/-! ## Concrete witness world: small analyses, file items and a pointwise
JSON codec for the toy crypto primitives. -/

/-- Witness analysis record 1. -/
def wA : PatientAnalysis := ⟨"a1", "01-01-2024", 0, "f.pdf", []⟩

/-- Witness analysis record 2. -/
def wA2 : PatientAnalysis := ⟨"a2", "02-01-2024", 1, "g.pdf", []⟩

/-- Witness file metadata record. -/
def wFile1 : FileItem := ⟨"id1", "f.pdf", 3, "application/pdf", 0, none⟩

/-- Witness browser file whose re-save produces wFile1. -/
def wBFile : BrowserFile := ⟨"f.pdf", 3, "application/pdf", 0, [9, 9, 9]⟩

/-- Witness 16-byte salt. -/
def wSalt : List Nat := List.replicate 16 0

/-- Witness 12-byte IV. -/
def wIv : List Nat := List.replicate 12 1

/-- Second witness salt. -/
def wSalt2 : List Nat := List.replicate 16 2

/-- Second witness IV. -/
def wIv2 : List Nat := List.replicate 12 3

/-- Pointwise witness JSON codec: serializes the handful of concrete lists
the witnesses exercise to distinct strings and parses them back. -/
def wCodec : JsonCodec where
  serFileItems := fun l =>
    if l = [wFile1] then "F1" else if l = [] then "F0" else "FX"
  deserFileItems := fun s =>
    if s = "F1" then some [wFile1] else if s = "F0" then some [] else none
  serAnalyses := fun l =>
    if l = [wA] then "A1" else if l = [wA2] then "A2"
    else if l = [wA, wA2] then "A12" else if l = [] then "A0" else "AX"
  deserAnalyses := fun s =>
    if s = "A1" then some [wA] else if s = "A2" then some [wA2]
    else if s = "A12" then some [wA, wA2] else if s = "A0" then some []
    else none

/-- An empty persisted state. -/
def emptyStore : StoreState :=
  ⟨fun _ => none, fun _ => none, fun _ => none, fun _ => none, fun _ => none⟩

/-- A state whose only entry is the history blob [wA] for patient "p",
encrypted under PIN "1111". -/
def wStoreHist : StoreState :=
  { emptyStore with encHistory := (setKeyMap emptyStore.encHistory
      (getHistoryKeyEnc "p")
      (encryptJSONAnalyses toyPrims wCodec [wA] "1111" wSalt wIv)) }

/-- The length of the witness salt. -/
theorem wSalt_len : wSalt.length = SALT_LENGTH := by
  simp [wSalt, SALT_LENGTH]

/-- The length of the witness IV. -/
theorem wIv_len : wIv.length = IV_LENGTH := by
  simp [wIv, IV_LENGTH]

/-- The length of the second witness salt. -/
theorem wSalt2_len : wSalt2.length = SALT_LENGTH := by
  simp [wSalt2, SALT_LENGTH]

/-- The length of the second witness IV. -/
theorem wIv2_len : wIv2.length = IV_LENGTH := by
  simp [wIv2, IV_LENGTH]

/-- Derived toy keys of the PINs "1111" and "2222" are distinct under any
salt. -/
theorem toy_keys_ne (salt : List Nat) :
    deriveKey toyPrims "1111" salt ≠ deriveKey toyPrims "2222" salt := by
  unfold deriveKey toyPrims
  intro h
  simp only [List.cons.injEq] at h
  have h2 := congrArg (List.drop salt.length) h.2
  rw [List.drop_left, List.drop_left] at h2
  exact absurd h2 (by decide)

/-- A state holding, under PIN "1111", the witness history blob [wA], the
witness file index [wFile1], and a PDF password blob. -/
def wStoreC4 : StoreState :=
  { wStoreHist with
      encFiles := (setKeyMap wStoreHist.encFiles FILE_INDEX_KEY
        (encryptJSONFiles toyPrims wCodec [wFile1] "1111" wSalt wIv)),
      encSettings := (setKeyMap wStoreHist.encSettings PDF_PASSWORD_KEY
        (encrypt toyPrims (.str "pw") "1111" wSalt wIv)) }

/-- The witness history blob fails to decrypt under PIN "2222". -/
theorem wC4_hist_fail :
    decryptJSONAnalyses toyPrims wCodec
      (encryptJSONAnalyses toyPrims wCodec [wA] "1111" wSalt wIv) "2222" =
      none := by
  have hdec := decrypt_wrong_key toyPrims toy_gcm_reject
    (.str (wCodec.serAnalyses [wA])) "1111" "2222" wSalt wIv
    wSalt_len wIv_len (toy_keys_ne wSalt)
  simp [encryptJSONAnalyses, decryptJSONAnalyses, decryptToString, hdec]

/-- The witness file-index blob fails to decrypt under PIN "2222". -/
theorem wC4_index_fail :
    decryptJSONFiles toyPrims wCodec
      (encryptJSONFiles toyPrims wCodec [wFile1] "1111" wSalt wIv) "2222" =
      none := by
  have hdec := decrypt_wrong_key toyPrims toy_gcm_reject
    (.str (wCodec.serFileItems [wFile1])) "1111" "2222" wSalt wIv
    wSalt_len wIv_len (toy_keys_ne wSalt)
  simp [encryptJSONFiles, decryptJSONFiles, decryptToString, hdec]

/-- The witness password blob fails to decrypt under PIN "2222". -/
theorem wC4_pw_fail :
    decrypt toyPrims (encrypt toyPrims (.str "pw") "1111" wSalt wIv)
      "2222" = none :=
  decrypt_wrong_key toyPrims toy_gcm_reject _ "1111" "2222" wSalt wIv
    wSalt_len wIv_len (toy_keys_ne wSalt)

/-- The file index of wStoreC4 read under PIN "2222" is empty. -/
theorem wC4_index_empty :
    getEncryptedFileIndex toyPrims wCodec "2222" wStoreC4 = [] := by
  unfold getEncryptedFileIndex
  have hb : wStoreC4.encFiles FILE_INDEX_KEY =
      some (encryptJSONFiles toyPrims wCodec [wFile1] "1111" wSalt wIv) := by
    simp [wStoreC4, setKeyMap]
  simp [hb, wC4_index_fail]

/-- Witness for C4: with the store holding history, index and password
blobs written under PIN "1111", reading them with PIN "2222" yields the
empty list / null, exactly as when no data is stored. -/
theorem C4_witness :
    getPatientHistoryEncrypted toyPrims wCodec "p" "2222" wStoreC4 = []
    ∧ getFilesEncrypted toyPrims wCodec "2222" wStoreC4 = []
    ∧ loadPdfPasswordEncrypted toyPrims "2222" wStoreC4 = none
    ∧ getFileEncrypted toyPrims wCodec "f.pdf" "2222" wStoreC4 = none :=
  C4_reads_fail_closed toyPrims wCodec wStoreC4 "2222" "p" "f.pdf"
    (Or.inr ⟨_, by simp [wStoreC4, wStoreHist, emptyStore, setKeyMap],
      wC4_hist_fail⟩)
    (Or.inr ⟨_, by simp [wStoreC4, setKeyMap], wC4_index_fail⟩)
    (Or.inr ⟨_, by simp [wStoreC4, setKeyMap], wC4_pw_fail⟩)
    (by
      intro f hf blob hblob
      rw [wC4_index_empty] at hf
      exact absurd hf (List.not_mem_nil f))

/-- The witness history blob of wStoreHist is stored under the patient key. -/
theorem wStoreHist_blob :
    wStoreHist.encHistory (getHistoryKeyEnc "p") =
      some (encryptJSONAnalyses toyPrims wCodec [wA] "1111" wSalt wIv) := by
  simp [wStoreHist, emptyStore, setKeyMap]

/-- Counterexample to claim C2: starting from a store whose only entry is
the history [wA] persisted under PIN "1111", running saveAnalysisEncrypted
with the non-matching PIN "2222" swallows the decryption failure as an
empty history and overwrites the patient's blob, so the previously
persisted analysis wA is no longer reachable under its own PIN — the
operation did corrupt previously persisted state. -/
theorem C2_counterexample :
    getPatientHistoryEncrypted toyPrims wCodec "p" "1111" wStoreHist = [wA]
    ∧ getPatientHistoryEncrypted toyPrims wCodec "p" "1111"
        (saveAnalysisEncrypted toyPrims wCodec "p" wA2 "2222" (wSalt2, wIv2)
          wStoreHist) = [] := by
  constructor
  · exact getHistoryEncrypted_of_blob toyPrims wCodec toy_gcm_roundtrip "p"
      "1111" [wA] wSalt wIv wSalt_len wIv_len (by simp [wCodec])
      (toy_utf8_roundtrip _) wStoreHist wStoreHist_blob
  · have hist2 : getPatientHistoryEncrypted toyPrims wCodec "p" "2222"
        wStoreHist = [] :=
      getHistoryEncrypted_wrong_pin toyPrims wCodec toy_gcm_reject "p" "1111"
        "2222" [wA] wSalt wIv wSalt_len wIv_len (toy_keys_ne wSalt)
        wStoreHist wStoreHist_blob
    exact getHistoryEncrypted_wrong_pin toyPrims wCodec toy_gcm_reject "p"
      "2222" "1111" [wA2] wSalt2 wIv2 wSalt2_len wIv2_len
      (Ne.symm (toy_keys_ne wSalt2)) _
      (by simp [saveAnalysisEncrypted, hist2, setKeyMap])

/-- Claim C2 as amended: when the supplied PIN matches the stored blobs
(expressed as: the store-layer reads decode to the given lists, and the
re-encrypted payloads decode back), each of the four operations rewrites
only its own entity's keys — saveAnalysisEncrypted/deleteAnalysisEncrypted
the patient's history blob (appending the new analysis resp. filtering the
deleted id, so all other previously persisted analyses survive),
saveFileEncrypted the file index and the fresh file blob key,
deleteFileEncrypted the file index and the deleted file's blob key — and
every entry under any other key of any store is left unchanged.  (Under a
mismatched PIN the counterexample shows previously persisted entries are
discarded, so the matching-PIN proviso is necessary.) -/
theorem C2_amended (M : CryptoPrims) (J : JsonCodec)
    (hgcm : ∀ k iv p, M.gcmDecrypt k iv (M.gcmEncrypt k iv p) = some p)
    (patientId pin newId aid fileName : String)
    (a : PatientAnalysis) (file : BrowserFile)
    (h0 : List PatientAnalysis) (files0 : List FileItem)
    (s : StoreState) (r r1 r2 : List Nat × List Nat)
    (hrs : r.1.length = SALT_LENGTH) (hri : r.2.length = IV_LENGTH)
    (hr2s : r2.1.length = SALT_LENGTH) (hr2i : r2.2.length = IV_LENGTH)
    (hread : getPatientHistoryEncrypted M J patientId pin s = h0)
    (hreadF : getEncryptedFileIndex M J pin s = files0)
    (hserA : J.deserAnalyses (J.serAnalyses (h0 ++ [a])) = some (h0 ++ [a]))
    (hutfA : M.utf8Decode (M.utf8Encode (J.serAnalyses (h0 ++ [a]))) =
      J.serAnalyses (h0 ++ [a]))
    (hserD : J.deserAnalyses (J.serAnalyses
        (h0.filter (fun x => x.id ≠ aid))) =
      some (h0.filter (fun x => x.id ≠ aid)))
    (hutfD : M.utf8Decode (M.utf8Encode (J.serAnalyses
        (h0.filter (fun x => x.id ≠ aid)))) =
      J.serAnalyses (h0.filter (fun x => x.id ≠ aid)))
    (hserF : J.deserFileItems (J.serFileItems (files0 ++
        [⟨newId, file.name, file.size, file.type, file.lastModified, none⟩]))
      = some (files0 ++
        [⟨newId, file.name, file.size, file.type, file.lastModified, none⟩]))
    (hutfF : M.utf8Decode (M.utf8Encode (J.serFileItems (files0 ++
        [⟨newId, file.name, file.size, file.type, file.lastModified, none⟩])))
      = J.serFileItems (files0 ++
        [⟨newId, file.name, file.size, file.type, file.lastModified, none⟩]))
    (hserDF : J.deserFileItems (J.serFileItems
        (files0.filter (fun f => f.name ≠ fileName))) =
      some (files0.filter (fun f => f.name ≠ fileName)))
    (hutfDF : M.utf8Decode (M.utf8Encode (J.serFileItems
        (files0.filter (fun f => f.name ≠ fileName)))) =
      J.serFileItems (files0.filter (fun f => f.name ≠ fileName))) :
    (getPatientHistoryEncrypted M J patientId pin
        (saveAnalysisEncrypted M J patientId a pin r s) = h0 ++ [a]
      ∧ (∀ k, k ≠ getHistoryKeyEnc patientId →
          (saveAnalysisEncrypted M J patientId a pin r s).encHistory k =
            s.encHistory k)
      ∧ (saveAnalysisEncrypted M J patientId a pin r s).encFiles = s.encFiles
      ∧ (saveAnalysisEncrypted M J patientId a pin r s).encSettings =
          s.encSettings
      ∧ (saveAnalysisEncrypted M J patientId a pin r s).plainFiles =
          s.plainFiles
      ∧ (saveAnalysisEncrypted M J patientId a pin r s).plainHistory =
          s.plainHistory)
    ∧ (getPatientHistoryEncrypted M J patientId pin
        (deleteAnalysisEncrypted M J patientId aid pin r s) =
          h0.filter (fun x => x.id ≠ aid)
      ∧ (∀ k, k ≠ getHistoryKeyEnc patientId →
          (deleteAnalysisEncrypted M J patientId aid pin r s).encHistory k =
            s.encHistory k)
      ∧ (deleteAnalysisEncrypted M J patientId aid pin r s).encFiles =
          s.encFiles
      ∧ (deleteAnalysisEncrypted M J patientId aid pin r s).encSettings =
          s.encSettings
      ∧ (deleteAnalysisEncrypted M J patientId aid pin r s).plainFiles =
          s.plainFiles
      ∧ (deleteAnalysisEncrypted M J patientId aid pin r s).plainHistory =
          s.plainHistory)
    ∧ (getFilesEncrypted M J pin
        (saveFileEncrypted M J file pin newId r1 r2 s) = files0 ++
          [⟨newId, file.name, file.size, file.type, file.lastModified, none⟩]
      ∧ (∀ k, k ≠ FILE_INDEX_KEY → k ≠ "file_enc_" ++ newId →
          (saveFileEncrypted M J file pin newId r1 r2 s).encFiles k =
            s.encFiles k)
      ∧ (saveFileEncrypted M J file pin newId r1 r2 s).encHistory =
          s.encHistory
      ∧ (saveFileEncrypted M J file pin newId r1 r2 s).encSettings =
          s.encSettings
      ∧ (saveFileEncrypted M J file pin newId r1 r2 s).plainFiles =
          s.plainFiles
      ∧ (saveFileEncrypted M J file pin newId r1 r2 s).plainHistory =
          s.plainHistory)
    ∧ (getFilesEncrypted M J pin
        (deleteFileEncrypted M J fileName pin r2 s) =
          files0.filter (fun f => f.name ≠ fileName)
      ∧ (∀ k, k ≠ FILE_INDEX_KEY →
          (∀ f, files0.find? (fun g => g.name = fileName) = some f →
            k ≠ "file_enc_" ++ f.id) →
          (deleteFileEncrypted M J fileName pin r2 s).encFiles k =
            s.encFiles k)
      ∧ (deleteFileEncrypted M J fileName pin r2 s).encHistory = s.encHistory
      ∧ (deleteFileEncrypted M J fileName pin r2 s).encSettings =
          s.encSettings
      ∧ (deleteFileEncrypted M J fileName pin r2 s).plainFiles = s.plainFiles
      ∧ (deleteFileEncrypted M J fileName pin r2 s).plainHistory =
          s.plainHistory) := by
  refine ⟨⟨?_, ?_, ?_, ?_, ?_, ?_⟩, ⟨?_, ?_, ?_, ?_, ?_, ?_⟩,
    ⟨?_, ?_, ?_, ?_, ?_, ?_⟩, ⟨?_, ?_, ?_, ?_, ?_, ?_⟩⟩
  · exact getHistoryEncrypted_of_blob M J hgcm patientId pin (h0 ++ [a])
      r.1 r.2 hrs hri hserA hutfA _
      (by simp [saveAnalysisEncrypted, hread, setKeyMap])
  · intro k hk
    simp [saveAnalysisEncrypted, setKeyMap, hk]
  · rfl
  · rfl
  · rfl
  · rfl
  · exact getHistoryEncrypted_of_blob M J hgcm patientId pin
      (h0.filter (fun x => x.id ≠ aid)) r.1 r.2 hrs hri hserD hutfD _
      (by simp [deleteAnalysisEncrypted, hread, setKeyMap])
  · intro k hk
    simp [deleteAnalysisEncrypted, setKeyMap, hk]
  · rfl
  · rfl
  · rfl
  · rfl
  · exact getFileIndex_of_blob M J hgcm pin (files0 ++
      [⟨newId, file.name, file.size, file.type, file.lastModified, none⟩])
      r2.1 r2.2 hr2s hr2i hserF hutfF
      (saveFileEncrypted M J file pin newId r1 r2 s)
      (by simp [saveFileEncrypted, saveEncryptedFileIndex, hreadF, setKeyMap])
  · intro k hk1 hk2
    simp [saveFileEncrypted, saveEncryptedFileIndex, setKeyMap, hk1, hk2]
  · rfl
  · rfl
  · rfl
  · rfl
  · refine getFileIndex_of_blob M J hgcm pin
      (files0.filter (fun f => f.name ≠ fileName)) r2.1 r2.2 hr2s hr2i
      hserDF hutfDF _ ?_
    simp only [deleteFileEncrypted, hreadF]
    cases hfind : files0.find? (fun g => g.name = fileName) with
    | none => simp [saveEncryptedFileIndex, setKeyMap]
    | some f => simp [saveEncryptedFileIndex, setKeyMap]
  · intro k hk1 hk2
    simp only [deleteFileEncrypted, hreadF]
    cases hfind : files0.find? (fun g => g.name = fileName) with
    | none => simp [saveEncryptedFileIndex, setKeyMap, hk1]
    | some f =>
      have hkf : k ≠ "file_enc_" ++ f.id := hk2 f hfind
      simp [saveEncryptedFileIndex, setKeyMap, removeKeyMap, hk1, hkf]
  · simp only [deleteFileEncrypted, hreadF]
    cases hfind : files0.find? (fun g => g.name = fileName) with
    | none => rfl
    | some f => rfl
  · simp only [deleteFileEncrypted, hreadF]
    cases hfind : files0.find? (fun g => g.name = fileName) with
    | none => rfl
    | some f => rfl
  · simp only [deleteFileEncrypted, hreadF]
    cases hfind : files0.find? (fun g => g.name = fileName) with
    | none => rfl
    | some f => rfl
  · simp only [deleteFileEncrypted, hreadF]
    cases hfind : files0.find? (fun g => g.name = fileName) with
    | none => rfl
    | some f => rfl

/-- Witness for C2 as amended: on an empty store under PIN "1111", saving
an analysis makes it readable back, and saving a file makes the index list
exactly the new metadata record. -/
theorem C2_witness :
    getPatientHistoryEncrypted toyPrims wCodec "p" "1111"
      (saveAnalysisEncrypted toyPrims wCodec "p" wA "1111" (wSalt, wIv)
        emptyStore) = [wA]
    ∧ getFilesEncrypted toyPrims wCodec "1111"
      (saveFileEncrypted toyPrims wCodec wBFile "1111" "id1" (wSalt, wIv)
        (wSalt2, wIv2) emptyStore) = [wFile1] := by
  have h := C2_amended toyPrims wCodec toy_gcm_roundtrip "p" "1111" "id1"
    "zz" "none.pdf" wA wBFile [] [] emptyStore (wSalt, wIv) (wSalt, wIv)
    (wSalt2, wIv2) wSalt_len wIv_len wSalt2_len wIv2_len rfl rfl
    (by simp [wCodec]) (toy_utf8_roundtrip _) (by simp [wCodec])
    (toy_utf8_roundtrip _) (by decide) (toy_utf8_roundtrip _) (by decide)
    (toy_utf8_roundtrip _)
  refine ⟨?_, ?_⟩
  · simpa using h.1.1
  · simpa [wBFile, wFile1] using h.2.2.1.1

/-- A state holding the encrypted history [wA] under PIN "1111" and a
legacy plain history [wA2] for the same patient. -/
def wStoreC3 : StoreState :=
  { wStoreHist with plainHistory := (setKeyMap wStoreHist.plainHistory
      (getHistoryKeyPlain "p") [wA2]) }

/-- Counterexample to claim C3: with an existing encrypted history [wA]
and a non-empty legacy history [wA2] for the same patient, the migration
overwrites the existing encrypted entry with the re-encrypted legacy list:
afterwards the patient's history reads as [wA2], not [wA] — the legacy
data wins, the existing encrypted entry is clobbered. -/
theorem C3_counterexample :
    getPatientHistoryEncrypted toyPrims wCodec "p" "1111" wStoreC3 = [wA]
    ∧ getPatientHistoryEncrypted toyPrims wCodec "p" "1111"
        (migrateToEncryptedStorage toyPrims wCodec "1111" "p" [] []
          [(wSalt2, wIv2)] wStoreC3).1 = [wA2] := by
  constructor
  · exact getHistoryEncrypted_of_blob toyPrims wCodec toy_gcm_roundtrip "p"
      "1111" [wA] wSalt wIv wSalt_len wIv_len (by simp [wCodec])
      (toy_utf8_roundtrip _) wStoreC3
      (by simp [wStoreC3, wStoreHist, emptyStore, setKeyMap])
  · refine getHistoryEncrypted_of_blob toyPrims wCodec toy_gcm_roundtrip "p"
      "1111" [wA2] wSalt2 wIv2 wSalt2_len wIv2_len (by decide)
      (toy_utf8_roundtrip _)
      (migrateToEncryptedStorage toyPrims wCodec "1111" "p" [] []
        [(wSalt2, wIv2)] wStoreC3).1 ?_
    simp [migrateToEncryptedStorage, migrateFilesLoop, getFilesFromStorage,
      getPatientHistory, wStoreC3, wStoreHist, emptyStore, setKeyMap,
      getHistoryKeyPlain]

/-- Claim C3 as amended: the migration is a no-op — returning the state
unchanged with zero counts — when both legacy stores are already empty
(idempotence on an emptied legacy store); but when legacy analyses exist
(and no legacy files do), the re-encrypted legacy list replaces whatever
encrypted history the patient already had — legacy entries win, existing
encrypted entries are overwritten — the legacy history is deleted, and the
counts are (0, number of legacy analyses). -/
theorem C3_amended (M : CryptoPrims) (J : JsonCodec)
    (hgcm : ∀ k iv p, M.gcmDecrypt k iv (M.gcmEncrypt k iv p) = some p)
    (pin patientId : String) (ids : List String) (nows : List ℚ)
    (rnds : List (List Nat × List Nat)) (s : StoreState) :
    (getFilesFromStorage s = [] → getPatientHistory patientId s = [] →
      migrateToEncryptedStorage M J pin patientId ids nows rnds s =
        (s, 0, 0))
    ∧ ∀ la, getFilesFromStorage s = [] →
        getPatientHistory patientId s = la → la ≠ [] →
        (rnds.headD ([], [])).1.length = SALT_LENGTH →
        (rnds.headD ([], [])).2.length = IV_LENGTH →
        J.deserAnalyses (J.serAnalyses la) = some la →
        M.utf8Decode (M.utf8Encode (J.serAnalyses la)) = J.serAnalyses la →
        getPatientHistoryEncrypted M J patientId pin
          (migrateToEncryptedStorage M J pin patientId ids nows rnds s).1
            = la
        ∧ getPatientHistory patientId
            (migrateToEncryptedStorage M J pin patientId ids nows rnds s).1
            = []
        ∧ (migrateToEncryptedStorage M J pin patientId ids nows rnds s).2 =
            (0, la.length) := by
  constructor
  · intro h1 h2
    simp [migrateToEncryptedStorage, migrateFilesLoop, h1, h2]
  · intro la h1 h2 hla hsl hil hser hutf
    have hpos : 0 < la.length := List.length_pos.mpr hla
    have h2a : (s.plainHistory (getHistoryKeyPlain patientId)).getD [] =
        la := h2
    refine ⟨?_, ?_, ?_⟩
    · refine getHistoryEncrypted_of_blob M J hgcm patientId pin la
        (rnds.headD ([], [])).1 (rnds.headD ([], [])).2 hsl hil hser hutf
        (migrateToEncryptedStorage M J pin patientId ids nows rnds s).1 ?_
      simp [migrateToEncryptedStorage, migrateFilesLoop, h1, h2, hpos,
        setKeyMap]
    · simp [migrateToEncryptedStorage, migrateFilesLoop, getPatientHistory,
        h1, h2a, hpos, removeKeyMap]
    · simp [migrateToEncryptedStorage, migrateFilesLoop, h1, h2, hpos]

/-- A state holding only a legacy plain history [wA2] for patient "p". -/
def wStoreC3L : StoreState :=
  { emptyStore with plainHistory := (setKeyMap emptyStore.plainHistory
      (getHistoryKeyPlain "p") [wA2]) }

/-- Witness for C3 as amended: on an empty store the migration is exactly
a no-op, and from a store holding only the legacy history [wA2] the
migration makes [wA2] the encrypted history, empties the legacy history,
and reports (0, 1). -/
theorem C3_witness :
    migrateToEncryptedStorage toyPrims wCodec "1111" "p" [] [] []
      emptyStore = (emptyStore, 0, 0)
    ∧ getPatientHistoryEncrypted toyPrims wCodec "p" "1111"
        (migrateToEncryptedStorage toyPrims wCodec "1111" "p" [] []
          [(wSalt2, wIv2)] wStoreC3L).1 = [wA2]
    ∧ getPatientHistory "p"
        (migrateToEncryptedStorage toyPrims wCodec "1111" "p" [] []
          [(wSalt2, wIv2)] wStoreC3L).1 = []
    ∧ (migrateToEncryptedStorage toyPrims wCodec "1111" "p" [] []
        [(wSalt2, wIv2)] wStoreC3L).2 = (0, 1) := by
  refine ⟨?_, ?_⟩
  · exact (C3_amended toyPrims wCodec toy_gcm_roundtrip "1111" "p" [] [] []
      emptyStore).1 rfl rfl
  · have h := (C3_amended toyPrims wCodec toy_gcm_roundtrip "1111" "p" [] []
      [(wSalt2, wIv2)] wStoreC3L).2 [wA2] rfl
      (by simp [getPatientHistory, wStoreC3L, emptyStore, setKeyMap])
      (by simp) wSalt2_len wIv2_len (by decide)
      (toy_utf8_roundtrip _)
    exact ⟨h.1, h.2.1, h.2.2⟩

/-! ## PDF layout extractor (src/services/patientHistory.ts, extraction
section).  JS `Array.prototype.sort` is required to be stable; it is
modelled by a stable insertion sort.  Page/text coordinates arrive as JS
numbers (ℚ) and are rounded to integers by the source. -/

/-- Insert an element into a sorted list, before the first element it
compares ≤ to (stability: an element inserted later goes after equals). -/
def insertSorted {α : Type} (le : α → α → Bool) (x : α) :
    List α → List α
  | [] => [x]
  | y :: ys => if le x y then x :: y :: ys else y :: insertSorted le x ys

/-- Model of the stable JS Array.prototype.sort with comparator le. -/
def stableSort {α : Type} (le : α → α → Bool) (l : List α) : List α :=
  l.foldr (insertSorted le) []

/-- Membership is preserved by insertSorted. -/
theorem mem_insertSorted {α : Type} (le : α → α → Bool) (x a : α) :
    ∀ l : List α, a ∈ insertSorted le x l ↔ a = x ∨ a ∈ l := by
  intro l
  induction l with
  | nil => simp [insertSorted]
  | cons y ys ih =>
    simp only [insertSorted]
    by_cases h : le x y = true
    · simp [h]
    · simp [h, ih]
      try tauto

/-- Membership is preserved by stableSort. -/
theorem mem_stableSort {α : Type} (le : α → α → Bool) (a : α) :
    ∀ l : List α, a ∈ stableSort le l ↔ a ∈ l := by
  intro l
  induction l with
  | nil => simp [stableSort]
  | cons y ys ih =>
    simp only [stableSort, List.foldr_cons] at ih ⊢
    rw [mem_insertSorted]
    simp [ih]
    try tauto

/-- One positioned text run (TextItem of the source), after rounding. -/
structure TextItem where
  text : String
  x : Int
  y : Int
  width : Int
deriving DecidableEq, Repr

/-- Source constant Y_TOLERANCE (4 PDF points). -/
def Y_TOLERANCE : Nat := 4

/-- The fixed Novelab column boundary table (source constant COL). -/
structure ColBounds where
  NAME_END : Int
  VALUE_START : Int
  VALUE_END : Int
  UNIT_START : Int
  UNIT_END : Int
  RANGE_START : Int
  RANGE_END : Int

/-- Source constant COL. -/
def COL : ColBounds := ⟨270, 270, 320, 320, 380, 375, 460⟩

/-- JS whitespace class membership (the characters String.prototype.trim
and \s strip in practice for this code: space, tab, LF, CR, VT, FF,
NBSP). -/
def jsWhitespace (c : Char) : Bool :=
  c = ' ' || c = '\t' || c = '\n' || c = '\r' || c = Char.ofNat 11 ||
    c = Char.ofNat 12 || c = Char.ofNat 160

/-- Model of String.prototype.trim on a character list. -/
def trimChars (cs : List Char) : List Char :=
  ((cs.dropWhile jsWhitespace).reverse.dropWhile jsWhitespace).reverse

/-- Model of String.prototype.trim. -/
def jsTrim (s : String) : String := String.mk (trimChars s.toList)

/-- Membership band of the name column: x < COL.NAME_END. -/
def inNameBand (it : TextItem) : Bool :=
  decide (it.x < COL.NAME_END)

/-- Membership band of the value column: COL.VALUE_START ≤ x <
COL.VALUE_END. -/
def inValueBand (it : TextItem) : Bool :=
  decide (COL.VALUE_START ≤ it.x) && decide (it.x < COL.VALUE_END)

/-- Membership band of the unit column: COL.UNIT_START ≤ x < COL.UNIT_END. -/
def inUnitBand (it : TextItem) : Bool :=
  decide (COL.UNIT_START ≤ it.x) && decide (it.x < COL.UNIT_END)

/-- Membership band of the reference-range column: COL.RANGE_START ≤ x <
COL.RANGE_END. -/
def inRangeBand (it : TextItem) : Bool :=
  decide (COL.RANGE_START ≤ it.x) && decide (it.x < COL.RANGE_END)

/-- One reconstituted logical line (LogicalLine of the source). -/
structure LogicalLine where
  y : Int
  items : List TextItem
  nameText : String
  valueText : String
  unitText : String
  rangeText : String
deriving DecidableEq, Repr

/-- Column text assembly: trim each run, join with single spaces, trim. -/
def joinTexts (items : List TextItem) : String :=
  jsTrim (String.intercalate " " (items.map (fun it => jsTrim it.text)))

/-- Build one LogicalLine from a Y-cluster: sort runs by X and classify
each non-empty run into the four column bands. -/
def buildLogicalLine (y : Int) (items : List TextItem) : LogicalLine :=
  let sortedItems := stableSort (fun a b => a.x ≤ b.x) items
  let nameItems := sortedItems.filter
    (fun it => inNameBand it && decide (jsTrim it.text ≠ ""))
  let valueItems := sortedItems.filter
    (fun it => inValueBand it && decide (jsTrim it.text ≠ ""))
  let unitItems := sortedItems.filter
    (fun it => inUnitBand it && decide (jsTrim it.text ≠ ""))
  let rangeItems := sortedItems.filter
    (fun it => inRangeBand it && decide (jsTrim it.text ≠ ""))
  ⟨y, sortedItems, joinTexts nameItems, joinTexts valueItems,
    joinTexts unitItems, joinTexts rangeItems⟩

/-- One raw pdf.js text item: string, transform-origin coordinates and
width as JS numbers. -/
structure RawTextItem where
  str : String
  tx : ℚ
  ty : ℚ
  w : ℚ

/-- Model of JS Math.round (round half towards positive infinity). -/
def jsRound (q : ℚ) : Int := ⌊q + 1 / 2⌋

/-- Per-page preprocessing: drop runs that are empty after trimming or
are the watermark glyph "#", and round the coordinates. -/
def pageToItems (raw : List RawTextItem) : List TextItem :=
  (raw.filter (fun it =>
      decide (jsTrim it.str ≠ "") && decide (jsTrim it.str ≠ "#"))).map
    (fun it => ⟨it.str, jsRound it.tx, jsRound it.ty, jsRound it.w⟩)

/-- Stack the pages into one coordinate space: page i's Y coordinates are
shifted by i * 1000 (the source subtracts `(pageIndex - 1) * 1000` from
1-based pages).  Each run is tagged with its page index; the tag rides
along and is not inspected by the clustering. -/
def offsetPageItems (pages : List (List TextItem)) :
    List (TextItem × Nat) :=
  pages.enum.flatMap (fun pg =>
    pg.2.map (fun it => (⟨it.text, it.x, it.y - 1000 * (pg.1 : Int),
      it.width⟩, pg.1)))

/-- Greedy first-fit clustering step: the run joins the first existing
cluster whose anchor Y is within Y_TOLERANCE, else opens a new cluster
anchored at its own Y (appended at the end, as JS Map insertion order). -/
def insertGrouped (groups : List (Int × List (TextItem × Nat)))
    (item : TextItem × Nat) : List (Int × List (TextItem × Nat)) :=
  match groups with
  | [] => [(item.1.y, [item])]
  | (gy, members) :: rest =>
    if (item.1.y - gy).natAbs ≤ Y_TOLERANCE then
      (gy, members ++ [item]) :: rest
    else
      (gy, members) :: insertGrouped rest item

/-- Greedy Y-clustering of a run sequence. -/
def clusterByY (items : List (TextItem × Nat)) :
    List (Int × List (TextItem × Nat)) :=
  items.foldl insertGrouped []

/-- The whole-document clustering of extractPositionedLines, applied to
the preprocessed (filtered and rounded) pages: stack the pages, sort all
runs by descending Y, then cluster greedily. -/
def documentClusters (pages : List (List TextItem)) :
    List (Int × List (TextItem × Nat)) :=
  clusterByY (stableSort (fun a b => b.1.y ≤ a.1.y)
    (offsetPageItems pages))

/-- The logical lines of extractPositionedLines: preprocess each raw page,
cluster the whole document, build one line per cluster, sort the lines by
descending Y. -/
def extractLogicalLines (pages : List (List RawTextItem)) :
    List LogicalLine :=
  stableSort (fun a b => b.y ≤ a.y)
    ((documentClusters (pages.map pageToItems)).map
      (fun g => buildLogicalLine g.1 (g.2.map Prod.fst)))

/-- Counterexample to claim C6: a run at x = 377 with non-empty text lands
in BOTH the unit band [320, 380) and the range band [375, 460), so its text
appears in two of the four column strings of the LogicalLine — the bands do
not partition the cluster. -/
theorem C6_counterexample :
    (buildLogicalLine 700 [⟨"A", 377, 700, 10⟩]).unitText = "A"
    ∧ (buildLogicalLine 700 [⟨"A", 377, 700, 10⟩]).rangeText = "A" := by
  decide

/-- Claim C6 as amended: the four fixed X bands of buildLogicalLine are
pairwise disjoint and exhaustive on x < 375 and on 380 ≤ x < 460, but a
run with 375 ≤ x < 380 belongs to both the unit and the range band (its
text is duplicated into both column strings) and a run with x ≥ 460
belongs to no band at all. -/
theorem C6_amended (it : TextItem) :
    (it.x < COL.NAME_END → inNameBand it = true ∧ inValueBand it = false
      ∧ inUnitBand it = false ∧ inRangeBand it = false)
    ∧ (COL.VALUE_START ≤ it.x → it.x < COL.VALUE_END →
      inNameBand it = false ∧ inValueBand it = true
      ∧ inUnitBand it = false ∧ inRangeBand it = false)
    ∧ (COL.UNIT_START ≤ it.x → it.x < COL.RANGE_START →
      inNameBand it = false ∧ inValueBand it = false
      ∧ inUnitBand it = true ∧ inRangeBand it = false)
    ∧ (COL.RANGE_START ≤ it.x → it.x < COL.UNIT_END →
      inNameBand it = false ∧ inValueBand it = false
      ∧ inUnitBand it = true ∧ inRangeBand it = true)
    ∧ (COL.UNIT_END ≤ it.x → it.x < COL.RANGE_END →
      inNameBand it = false ∧ inValueBand it = false
      ∧ inUnitBand it = false ∧ inRangeBand it = true)
    ∧ (COL.RANGE_END ≤ it.x → inNameBand it = false
      ∧ inValueBand it = false ∧ inUnitBand it = false
      ∧ inRangeBand it = false) := by
  simp only [inNameBand, inValueBand, inUnitBand, inRangeBand, COL,
    Bool.and_eq_true, decide_eq_true_eq, Bool.and_eq_false_iff,
    decide_eq_false_iff_not]
  omega

/-- Witness for C6 as amended: a run at x = 377 is in both the unit and
the range bands and in neither of the name and value bands. -/
theorem C6_witness :
    inNameBand ⟨"u", 377, 0, 0⟩ = false ∧ inValueBand ⟨"u", 377, 0, 0⟩ =
      false ∧ inUnitBand ⟨"u", 377, 0, 0⟩ = true
    ∧ inRangeBand ⟨"u", 377, 0, 0⟩ = true :=
  (C6_amended ⟨"u", 377, 0, 0⟩).2.2.2.1 (by decide) (by decide)

/-- A run/page pair is page-consistent when its stacked Y coordinate plus
1000 times its page tag (i.e. the original rounded page-local Y) lies
within [0, 1000 - Y_TOLERANCE). -/
def PageValid (p : TextItem × Nat) : Prop :=
  0 ≤ p.1.y + 1000 * (p.2 : Int)
  ∧ p.1.y + 1000 * (p.2 : Int) + (Y_TOLERANCE : Int) < 1000

/-- Clustering invariant: every group's anchor is the stacked Y of some
page-consistent position, and every member is page-consistent and within
Y_TOLERANCE of the anchor. -/
def GroupInv (g : Int × List (TextItem × Nat)) : Prop :=
  ∃ (p : Nat) (r : Int), 0 ≤ r ∧ r + (Y_TOLERANCE : Int) < 1000
    ∧ g.1 = r - 1000 * (p : Int)
    ∧ ∀ m ∈ g.2, PageValid m ∧ (m.1.y - g.1).natAbs ≤ Y_TOLERANCE

/-- A page-consistent run within Y_TOLERANCE of a page-consistent anchor
lies on the anchor's page: the 1000-point inter-page gap exceeds the
tolerance. -/
theorem page_of_near_anchor (p : Nat) (r : Int) (h0 : 0 ≤ r)
    (h1 : r + (Y_TOLERANCE : Int) < 1000) (m : TextItem × Nat)
    (hm : PageValid m)
    (hnear : (m.1.y - (r - 1000 * (p : Int))).natAbs ≤ Y_TOLERANCE) :
    m.2 = p := by
  rcases hm with ⟨hm0, hm1⟩
  simp only [Y_TOLERANCE] at h1 hm1 hnear
  omega

/-- insertGrouped preserves the clustering invariant. -/
theorem insertGrouped_inv (item : TextItem × Nat) (hitem : PageValid item) :
    ∀ groups, (∀ g ∈ groups, GroupInv g) →
      ∀ g ∈ insertGrouped groups item, GroupInv g := by
  intro groups
  induction groups with
  | nil =>
    intro _ g hg
    simp only [insertGrouped, List.mem_singleton] at hg
    subst hg
    refine ⟨item.2, item.1.y + 1000 * (item.2 : Int), hitem.1, hitem.2,
      by ring_nf, ?_⟩
    intro m hm
    simp only [List.mem_singleton] at hm
    subst hm
    exact ⟨hitem, by simp⟩
  | cons hd tl ih =>
    intro hall g hg
    obtain ⟨gy, members⟩ := hd
    simp only [insertGrouped] at hg
    by_cases hnear : (item.1.y - gy).natAbs ≤ Y_TOLERANCE
    · rw [if_pos hnear] at hg
      rcases List.mem_cons.mp hg with hg | hg
      · subst hg
        obtain ⟨p, r, hr0, hr1, hkey, hmem⟩ := hall (gy, members)
          (List.mem_cons_self _ _)
        refine ⟨p, r, hr0, hr1, hkey, ?_⟩
        intro m hm
        rcases List.mem_append.mp hm with hm | hm
        · exact hmem m hm
        · simp only [List.mem_singleton] at hm
          subst hm
          exact ⟨hitem, hnear⟩
      · exact hall g (List.mem_cons_of_mem _ hg)
    · rw [if_neg hnear] at hg
      rcases List.mem_cons.mp hg with hg | hg
      · subst hg
        exact hall (gy, members) (List.mem_cons_self _ _)
      · exact ih (fun g hg => hall g (List.mem_cons_of_mem _ hg)) g hg

/-- clusterByY (from any accumulator satisfying the invariant) only
produces groups satisfying the invariant. -/
theorem foldl_insertGrouped_inv :
    ∀ (items : List (TextItem × Nat)) (acc : List (Int × List (TextItem × Nat))),
      (∀ p ∈ items, PageValid p) → (∀ g ∈ acc, GroupInv g) →
      ∀ g ∈ List.foldl insertGrouped acc items, GroupInv g := by
  intro items
  induction items with
  | nil =>
    intro acc _ hacc
    simpa using hacc
  | cons it rest ih =>
    intro acc hval hacc
    simp only [List.foldl_cons]
    exact ih _ (fun p hp => hval p (List.mem_cons_of_mem _ hp))
      (insertGrouped_inv it (hval it (List.mem_cons_self _ _)) acc hacc)

/-- Every element produced by offsetPageItems records a run of the tagged
page, shifted by 1000 times the page index. -/
theorem offsetPageItems_mem (pagesL : List (List TextItem))
    (p : TextItem × Nat) (hp : p ∈ offsetPageItems pagesL) :
    ∃ pg ∈ pagesL, ∃ it ∈ pg, p.1.y = it.y - 1000 * (p.2 : Int) := by
  unfold offsetPageItems at hp
  simp only [List.mem_flatMap, List.mem_map] at hp
  obtain ⟨⟨i, pg⟩, hpg, it, hit, hpeq⟩ := hp
  have hmem : pg ∈ pagesL :=
    List.get?_mem (List.mem_enum_iff_get?.mp hpg)
  subst hpeq
  exact ⟨pg, hmem, it, hit, rfl⟩

/-- Claim C7: if every rounded run of every page has its page-local Y
within [0, 1000 - Y_TOLERANCE), then after the pages are stacked at
1000-point offsets the greedy Y-clustering never places runs originating
from different pages into the same cluster. -/
theorem C7_no_cross_page_cluster (pages : List (List TextItem))
    (hok : ∀ pg ∈ pages, ∀ it ∈ pg,
      0 ≤ it.y ∧ it.y + (Y_TOLERANCE : Int) < 1000) :
    ∀ g ∈ documentClusters pages, ∀ a ∈ g.2, ∀ b ∈ g.2, a.2 = b.2 := by
  have hval : ∀ p ∈ stableSort (fun a b => b.1.y ≤ a.1.y)
      (offsetPageItems pages), PageValid p := by
    intro p hp
    rw [mem_stableSort] at hp
    obtain ⟨pg, hpg, it, hit, hy⟩ := offsetPageItems_mem _ p hp
    have hb := hok pg hpg it hit
    constructor
    · rw [hy]; omega
    · rw [hy]; omega
  intro g hg a ha b hb
  obtain ⟨p, r, hr0, hr1, hkey, hmem⟩ :=
    foldl_insertGrouped_inv _ [] hval (by simp) g hg
  obtain ⟨hva, hna⟩ := hmem a ha
  obtain ⟨hvb, hnb⟩ := hmem b hb
  rw [hkey] at hna hnb
  rw [page_of_near_anchor p r hr0 hr1 a hva hna,
    page_of_near_anchor p r hr0 hr1 b hvb hnb]

/-- Witness for C7: in a concrete two-page document with extreme in-range
Y values (995/993 on page one, 0 on page two), the runs at Y 995 and 993
form one concrete cluster and the theorem yields that their page tags
coincide. -/
theorem C7_witness :
    (((995 : Int), [((⟨"a", 10, 995, 1⟩ : TextItem), 0),
        ((⟨"c", 50, 993, 1⟩ : TextItem), 0)]) ∈
      documentClusters [[⟨"a", 10, 995, 1⟩, ⟨"c", 50, 993, 1⟩],
        [⟨"b", 10, 0, 1⟩]])
    ∧ ((⟨"a", 10, 995, 1⟩ : TextItem), (0 : Nat)).2 =
      ((⟨"c", 50, 993, 1⟩ : TextItem), (0 : Nat)).2 :=
  ⟨by decide,
   C7_no_cross_page_cluster
     [[⟨"a", 10, 995, 1⟩, ⟨"c", 50, 993, 1⟩], [⟨"b", 10, 0, 1⟩]]
     (by decide)
     ((995 : Int), [((⟨"a", 10, 995, 1⟩ : TextItem), 0),
       ((⟨"c", 50, 993, 1⟩ : TextItem), 0)]) (by decide)
     ((⟨"a", 10, 995, 1⟩ : TextItem), 0) (by decide)
     ((⟨"c", 50, 993, 1⟩ : TextItem), 0) (by decide)⟩

/-! ## Biochemistry parser (src/services/patientHistory.ts, parsing
section).  The JS regular expressions of the source are modelled by
equivalent character-list scanners; `parseFloat` is modelled on the
numeric inputs reachable here (no "Infinity" literal). -/

/-- Character class [\d,.] of the source regexes. -/
def isNumTokenChar (c : Char) : Bool :=
  c.isDigit || c = ',' || c = '.'

/-- The dash class [−\-–] of parseRange: minus sign U+2212, ASCII hyphen,
en dash U+2013 (and no other character). -/
def isDashChar (c : Char) : Bool :=
  c = '−' || c = '-' || c = '–'

/-- Lower-casing as JS toLowerCase, restricted to ASCII plus the accented
letters appearing in this code's patterns. -/
def jsToLower (c : Char) : Char :=
  if c = 'É' then 'é' else if c = 'È' then 'è' else if c = 'Ê' then 'ê'
  else if c = 'Ë' then 'ë' else if c = 'À' then 'à' else if c = 'Â' then 'â'
  else if c = 'Ç' then 'ç' else if c = 'Ô' then 'ô' else if c = 'Û' then 'û'
  else if c = 'Ù' then 'ù' else if c = 'Î' then 'î' else if c = 'Ï' then 'ï'
  else c.toLower

/-- Upper-casing as JS toUpperCase, restricted likewise. -/
def jsToUpper (c : Char) : Char :=
  if c = 'é' then 'É' else if c = 'è' then 'È' else if c = 'ê' then 'Ê'
  else if c = 'ë' then 'Ë' else if c = 'à' then 'À' else if c = 'â' then 'Â'
  else if c = 'ç' then 'Ç' else if c = 'ô' then 'Ô' else if c = 'û' then 'Û'
  else if c = 'ù' then 'Ù' else if c = 'î' then 'Î' else if c = 'ï' then 'Ï'
  else c.toUpper

/-- Numeric digit-run value. -/
def digitsToNat (ds : List Char) : Nat :=
  ds.foldl (fun acc c => 10 * acc + (c.toNat - 48)) 0

/-- Model of the JS parseFloat builtin on the numeric strings reachable in
this code: optional leading whitespace and sign, integer digits, optional
fraction, optional exponent; NaN is `none`.  (The "Infinity" literal never
occurs in the parsed inputs and is not modelled.) -/
def parseFloatM (cs : List Char) : Option ℚ :=
  let cs1 := cs.dropWhile jsWhitespace
  let signedTail : Bool × List Char :=
    match cs1 with
    | '-' :: r => (true, r)
    | '+' :: r => (false, r)
    | _ => (false, cs1)
  let neg := signedTail.1
  let cs2 := signedTail.2
  let ip := cs2.takeWhile Char.isDigit
  let cs3 := cs2.dropWhile Char.isDigit
  let fracTail : List Char × List Char :=
    match cs3 with
    | '.' :: r => (r.takeWhile Char.isDigit, r.dropWhile Char.isDigit)
    | _ => ([], cs3)
  let fp := fracTail.1
  let cs4 := fracTail.2
  if ip = [] ∧ fp = [] then none
  else
    let mant : ℚ := (digitsToNat ip : ℚ) +
      (digitsToNat fp : ℚ) / (10 : ℚ) ^ fp.length
    let expVal : Int :=
      match cs4 with
      | 'e' :: r =>
        let signedExp : Int × List Char :=
          match r with
          | '-' :: r2 => (-1, r2)
          | '+' :: r2 => (1, r2)
          | _ => (1, r)
        let eds := signedExp.2.takeWhile Char.isDigit
        if eds = [] then 0 else signedExp.1 * (digitsToNat eds : Int)
      | 'E' :: r =>
        let signedExp : Int × List Char :=
          match r with
          | '-' :: r2 => (-1, r2)
          | '+' :: r2 => (1, r2)
          | _ => (1, r)
        let eds := signedExp.2.takeWhile Char.isDigit
        if eds = [] then 0 else signedExp.1 * (digitsToNat eds : Int)
      | _ => 0
    let v := mant * (10 : ℚ) ^ expVal
    some (if neg then -v else v)

/-- Replace the first occurrence of a character (the JS
String.replace(",", ".") with a string pattern replaces only the first). -/
def replaceFirstChar : List Char → Char → Char → List Char
  | [], _, _ => []
  | c :: r, a, b => if c = a then b :: r else c :: replaceFirstChar r a b

/-- The match of the anchored regex for a max-only range: a leading <,
optional whitespace, then a [\d,.]+ token reaching the end of the text. -/
def ltMatch (cs : List Char) : Option (List Char) :=
  match cs with
  | [] => none
  | c :: rest =>
    if c = '<' then
      let r2 := rest.dropWhile jsWhitespace
      let tok := r2.takeWhile isNumTokenChar
      if tok ≠ [] ∧ r2.dropWhile isNumTokenChar = [] then some tok else none
    else none

/-- The match of the anchored regex for a min-only range: same with >. -/
def gtMatch (cs : List Char) : Option (List Char) :=
  match cs with
  | [] => none
  | c :: rest =>
    if c = '>' then
      let r2 := rest.dropWhile jsWhitespace
      let tok := r2.takeWhile isNumTokenChar
      if tok ≠ [] ∧ r2.dropWhile isNumTokenChar = [] then some tok else none
    else none

/-- One attempted match of the unanchored min-max regex
([\d,.]+)\s*[−\-–]\s*([\d,.]+) at the head of the text.  The character
classes are pairwise disjoint, so greedy matching never backtracks and
this scan is exact. -/
def rangeSearchAt (cs : List Char) : Option (List Char × List Char) :=
  let t1 := cs.takeWhile isNumTokenChar
  if t1 = [] then none
  else
    let r2 := (cs.dropWhile isNumTokenChar).dropWhile jsWhitespace
    match r2 with
    | d :: r3 =>
      if isDashChar d then
        let t2 := (r3.dropWhile jsWhitespace).takeWhile isNumTokenChar
        if t2 = [] then none else some (t1, t2)
      else none
    | [] => none

/-- Leftmost match of the unanchored min-max regex: try each start
position left to right. -/
def rangeSearch : List Char → Option (List Char × List Char)
  | [] => none
  | c :: rest =>
    match rangeSearchAt (c :: rest) with
    | some m => some m
    | none => rangeSearch rest

/-- The result record of parseRange.  A bound is `none` when the field is
undefined and `some none` when it is set to NaN. -/
structure RangeInfo where
  normalRange : String
  normalMin : Option (Option ℚ) := none
  normalMax : Option (Option ℚ) := none
deriving DecidableEq, Repr

/-- The cleaned text parseRange works on: parentheses stripped (global
replace), then trimmed. -/
def parseRangeCleaned (rangeText : String) : List Char :=
  trimChars (rangeText.toList.filter (fun c => c ≠ '(' && c ≠ ')'))

/-- Embedding of parseRange: the four-way pattern dispatch of the source
(max-only, min-only, min-max, display-only); each captured token has its
first comma replaced by a dot before parseFloat. -/
def parseRange (rangeText : String) : RangeInfo :=
  let cleaned := parseRangeCleaned rangeText
  match ltMatch cleaned with
  | some tok =>
    ⟨String.mk cleaned, none, some (parseFloatM (replaceFirstChar tok ',' '.'))⟩
  | none =>
  match gtMatch cleaned with
  | some tok =>
    ⟨String.mk cleaned, some (parseFloatM (replaceFirstChar tok ',' '.')), none⟩
  | none =>
  match rangeSearch cleaned with
  | some m =>
    ⟨String.mk cleaned, some (parseFloatM (replaceFirstChar m.1 ',' '.')),
      some (parseFloatM (replaceFirstChar m.2 ',' '.'))⟩
  | none => ⟨String.mk cleaned, none, none⟩

/-- Embedding of parseNumericValue: strip all < and > markers, replace the
first comma by a dot, trim, parseFloat; NaN becomes null. -/
def parseNumericValue (text : String) : Option ℚ :=
  parseFloatM (trimChars (replaceFirstChar
    (text.toList.filter (fun c => c ≠ '>' && c ≠ '<')) ',' '.'))

/-- Case-sensitive prefix test (String.prototype.startsWith). -/
def startsWithLit (s pat : String) : Bool :=
  pat.toList.isPrefixOf s.toList

/-- Case-insensitive prefix test (an anchored /^pat/i regex). -/
def startsWithCI (s pat : String) : Bool :=
  (pat.toList.map jsToLower).isPrefixOf (s.toList.map jsToLower)

/-- Substring containment (String.prototype.includes). -/
def containsSeq (pat : List Char) : List Char → Bool
  | [] => pat.isEmpty
  | c :: t => if pat.isPrefixOf (c :: t) then true else containsSeq pat t

/-- Substring containment on strings. -/
def containsSub (s pat : String) : Bool :=
  containsSeq pat.toList s.toList

/-- JS line-terminator class (which `.` does not match). -/
def lineTerm (c : Char) : Bool :=
  c = '\n' || c = '\r' || c = Char.ofNat 0x2028 || c = Char.ofNat 0x2029

/-- The /^\(.*\)$/ pattern: a parenthesized single-line text. -/
def parenWrapped (cs : List Char) : Bool :=
  match cs with
  | '(' :: c2 :: rest =>
    ((c2 :: rest).getLast? = some ')') &&
      ((c2 :: rest).dropLast).all (fun c => !(lineTerm c))
  | _ => false

/-- The /^pat\s*:/i patterns (Cause, INS, Genre): case-insensitive literal
prefix, optional whitespace, then a colon. -/
def ciPrefixWsColon (s pat : String) : Bool :=
  if startsWithCI s pat then
    match (s.toList.drop pat.length).dropWhile jsWhitespace with
    | ':' :: _ => true
    | _ => false
  else false

/-- The /^Page \d+/i pattern. -/
def pagePattern (cs : List Char) : Bool :=
  match cs.map jsToLower with
  | 'p' :: 'a' :: 'g' :: 'e' :: ' ' :: d :: _ => d.isDigit
  | _ => false

/-- The /^M\.\s+[A-Z]/ pattern (case sensitive). -/
def mDotName (cs : List Char) : Bool :=
  match cs with
  | 'M' :: '.' :: w :: rest =>
    jsWhitespace w &&
      (match (w :: rest).dropWhile jsWhitespace with
       | u :: _ => 'A' ≤ u && u ≤ 'Z'
       | [] => false)
  | _ => false

/-- The /^\d\x7b2\x7d:\d\x7b2\x7d$/ pattern: a lone hh:mm time. -/
def lonelyTime (cs : List Char) : Bool :=
  match cs with
  | [a, b, ':', c, d] => a.isDigit && b.isDigit && c.isDigit && d.isDigit
  | _ => false

/-- The /^H\d\x7b6\x7d/ pattern: an H followed by six digits. -/
def dossierNumber (cs : List Char) : Bool :=
  match cs with
  | 'H' :: a :: b :: c :: d :: e :: f :: _ =>
    a.isDigit && b.isDigit && c.isDigit && d.isDigit && e.isDigit &&
      f.isDigit
  | _ => false

/-- The /^\d+[−-]\d+[−-]\d\x7b4\x7d$/ pattern: an isolated date (minus
sign or hyphen separators only). -/
def isolatedDate (cs : List Char) : Bool :=
  let d1 := cs.takeWhile Char.isDigit
  let r1 := cs.dropWhile Char.isDigit
  decide (d1 ≠ []) &&
    (match r1 with
     | s1 :: r2 =>
       (s1 = '−' || s1 = '-') &&
         (let d2 := r2.takeWhile Char.isDigit
          let r3 := r2.dropWhile Char.isDigit
          decide (d2 ≠ []) &&
            (match r3 with
             | s2 :: r4 =>
               (s2 = '−' || s2 = '-') && decide (r4.length = 4) &&
                 r4.all Char.isDigit
             | [] => false))
     | [] => false)

/-- The /^Dr\s+/i pattern. -/
def drPrefix (s : String) : Bool :=
  startsWithCI s "Dr" &&
    (match s.toList.drop 2 with
     | w :: _ => jsWhitespace w
     | [] => false)

/-- Embedding of shouldSkipLine: the SKIP_PATTERNS denylist in source
order; an empty trimmed line is always skipped. -/
def shouldSkipLine (text : String) : Bool :=
  let t := jsTrim text
  if t = "" then true
  else
    parenWrapped t.toList ||
    startsWithCI t "Objectif" ||
    startsWithCI t "Intervalle" ||
    startsWithCI t "Classification" ||
    startsWithCI t "Stade" ||
    startsWithCI t "Attention" ||
    startsWithCI t "Changement" ||
    startsWithCI t "Technique de" ||
    startsWithCI t "Le calcul" ||
    startsWithCI t "Mise à jour" ||
    startsWithCI t "Valeurs recommandées" ||
    startsWithCI t "Par voie de" ||
    startsWithCI t "Interprétation" ||
    startsWithCI t "INFORMATION" ||
    startsWithCI t "Merci de" ||
    startsWithCI t "Analyse" ||
    ciPrefixWsColon t "Cause" ||
    startsWithCI t "NON CONFORMITÉ" ||
    startsWithCI t "Certaine" ||
    startsWithLit t "*** FIN" ||
    startsWithCI t "Edité le" ||
    startsWithCI t "Prescrit par" ||
    startsWithCI t "Double à" ||
    startsWithCI t "Prélevé" ||
    startsWithCI t "Date de naissance" ||
    startsWithCI t "Nom de naissance" ||
    startsWithCI t "Tel. patient" ||
    ciPrefixWsColon t "INS" ||
    startsWithCI t "Dossier n°" ||
    startsWithCI t "Laboratoire accr" ||
    startsWithCI t "Seules certaines" ||
    startsWithCI t "couvertes par" ||
    startsWithCI t "Validé par" ||
    startsWithCI t "Novelab S.E.L" ||
    startsWithCI t "La société Novelab" ||
    startsWithCI t "en tant que personne" ||
    startsWithCI t "CR_NOVELAB" ||
    pagePattern t.toList ||
    mDotName t.toList ||
    lonelyTime t.toList ||
    startsWithCI t "LABORATOIRE" ||
    startsWithCI t "NOVELAB" ||
    startsWithCI t "Z.A." ||
    startsWithCI t "Tél." ||
    startsWithCI t "amberieu@" ||
    drPrefix t ||
    dossierNumber t.toList ||
    ciPrefixWsColon t "Genre" ||
    isolatedDate t.toList ||
    startsWithCI t "Examen(s)" ||
    startsWithCI t "Modalités" ||
    startsWithCI t "Heure du prélèvement" ||
    startsWithCI t "Traitement antibiotique" ||
    startsWithCI t "Absence de" ||
    startsWithCI t "www."

/-- Model of the NFD-decompose-and-strip-marks removeAccents, restricted
to the French accented letters this report layout contains. -/
def removeAccentChar (c : Char) : Char :=
  if c = 'é' ∨ c = 'è' ∨ c = 'ê' ∨ c = 'ë' then 'e'
  else if c = 'É' ∨ c = 'È' ∨ c = 'Ê' ∨ c = 'Ë' then 'E'
  else if c = 'à' ∨ c = 'â' ∨ c = 'ä' then 'a'
  else if c = 'À' ∨ c = 'Â' ∨ c = 'Ä' then 'A'
  else if c = 'ô' ∨ c = 'ö' then 'o'
  else if c = 'Ô' ∨ c = 'Ö' then 'O'
  else if c = 'û' ∨ c = 'ù' ∨ c = 'ü' then 'u'
  else if c = 'Û' ∨ c = 'Ù' ∨ c = 'Ü' then 'U'
  else if c = 'î' ∨ c = 'ï' then 'i'
  else if c = 'Î' ∨ c = 'Ï' then 'I'
  else if c = 'ç' then 'c'
  else if c = 'Ç' then 'C'
  else c

/-- Embedding of removeAccents. -/
def removeAccents (s : String) : String :=
  String.mk (s.toList.map removeAccentChar)

/-- Source constant KNOWN_SECTIONS. -/
def KNOWN_SECTIONS : List String :=
  ["HEMATOLOGIE", "BIOCHIMIE SANGUINE", "BIOCHIMIE URINAIRE",
   "HORMONOLOGIE", "CYTOLOGIE URINAIRE", "SEROLOGIE", "IMMUNOLOGIE",
   "MICROBIOLOGIE", "COAGULATION"]

/-- Embedding of isSectionHeader: accent-stripped upper-cased text equals
or starts with a known section name. -/
def isSectionHeader (text : String) : Bool :=
  let normalized := String.mk ((removeAccents (jsTrim text)).toList.map
    Char.toUpper)
  KNOWN_SECTIONS.any (fun s => normalized = s || startsWithLit normalized s)

/-- The /^soit\s*:?$/i continuation-marker test on the trimmed name. -/
def isSoitMarker (s : String) : Bool :=
  match (jsTrim s).toList.map jsToLower with
  | 's' :: 'o' :: 'i' :: 't' :: rest =>
    let r2 := rest.dropWhile jsWhitespace
    r2 = [] || r2 = [':']
  | _ => false

/-- Global case-insensitive replacement of the first-matching alternative
pattern at each position (the /sériques?/gi and /à jeun/gi replaces;
alternatives are tried longest first as the regex engine does). -/
def replaceAllCI (pats : List (List Char)) (rep : List Char) :
    List Char → List Char
  | [] => []
  | c :: t =>
    match pats.find? (fun p =>
        (p.map jsToLower).isPrefixOf ((c :: t).map jsToLower)) with
    | some p => rep ++ replaceAllCI pats rep (t.drop (p.length - 1))
    | none => c :: replaceAllCI pats rep t
termination_by l => l.length
decreasing_by
  all_goals simp only [List.length_drop, List.length_cons]
  all_goals omega

/-- Squeeze runs of spaces to a single space. -/
def squeezeSpaces : List Char → List Char
  | [] => []
  | [c] => [c]
  | a :: b :: t =>
    if a = ' ' ∧ b = ' ' then squeezeSpaces (b :: t)
    else a :: squeezeSpaces (b :: t)

/-- Whitespace-run collapsing (the /\s+/g → " " replace): every
whitespace character becomes a space and maximal space runs are squeezed
to one. -/
def collapseWs (cs : List Char) : List Char :=
  squeezeSpaces (cs.map (fun c => if jsWhitespace c then ' ' else c))

/-- Name resolution of a line containing a colon: the text before the
first colon, trimmed, with the noise substrings replaced and whitespace
collapsed. -/
def cleanColonName (nameText : String) : String :=
  let beforeColon := jsTrim (String.mk
    (nameText.toList.takeWhile (fun c => c ≠ ':')))
  let s1 := replaceAllCI ["sériques".toList, "sérique".toList] []
    beforeColon.toList
  let s2 := replaceAllCI ["à jeun".toList] "(à jeun)".toList s1
  jsTrim (String.mk (collapseWs s2))

/-- Name resolution of a non-continuation line: before-colon cleanup when
a colon occurs, else the trimmed name itself. -/
def resolveNonSoitName (nameText : String) : String :=
  if containsSub nameText ":" = true then cleanColonName nameText
  else jsTrim nameText

/-- One parsed measurement (BiochemistryResult of the source). -/
structure BiochemistryResult where
  testName : String
  value : ℚ
  unit : String
  sectionName : String
  normalRange : Option String := none
  normalMin : Option (Option ℚ) := none
  normalMax : Option (Option ℚ) := none
deriving DecidableEq, Repr

/-- The mutable state of the extractAllResults loop. -/
structure ParserState where
  results : List BiochemistryResult
  currentSection : String
  lastTestName : String
  reachedEnd : Bool
deriving DecidableEq, Repr

/-- The initial loop state (default section, no prior test name). -/
def initState : ParserState := ⟨[], "GÉNÉRAL", "", false⟩

/-- The optional range info of a line (rangeInfo of the source: parsed
only when the range column is non-empty). -/
def lineRangeInfo (line : LogicalLine) : Option RangeInfo :=
  if line.rangeText ≠ "" then some (parseRange line.rangeText) else none

/-- The loop body of extractAllResults: one LogicalLine processed against
the current state (skip rules, section tracking, name resolution, range
parsing, lastTestName update). -/
def processLine (st : ParserState) (line : LogicalLine) : ParserState :=
  if st.reachedEnd = true then st
  else
    let nameText := line.nameText
    if containsSub nameText "*** FIN DU COMPTE RENDU ***" = true then
      { st with reachedEnd := true }
    else if isSectionHeader nameText = true ∧ line.valueText = "" then
      { st with currentSection := jsTrim nameText }
    else if line.valueText = "" ∧ line.rangeText = "" ∧
        (startsWithLit nameText "HÉMOGRAMME" = true ∨
          startsWithLit nameText "CYTOLOGIE" = true ∨
          nameText = "Valeurs de référence") then
      st
    else if shouldSkipLine nameText = true then st
    else if line.valueText = "" then st
    else
      match parseNumericValue line.valueText with
      | none => st
      | some numericValue =>
        if line.unitText = "" then st
        else
          let tn : Option String :=
            if isSoitMarker nameText = true then
              if st.lastTestName ≠ "" then
                some (st.lastTestName ++ " (24h)")
              else none
            else some (resolveNonSoitName nameText)
          match tn with
          | none => st
          | some testName =>
            if testName = "" then st
            else
              let rangeInfo := lineRangeInfo line
              let result : BiochemistryResult :=
                ⟨testName, numericValue, line.unitText, st.currentSection,
                  rangeInfo.map RangeInfo.normalRange,
                  rangeInfo.bind RangeInfo.normalMin,
                  rangeInfo.bind RangeInfo.normalMax⟩
              { st with
                  results := st.results ++ [result],
                  lastTestName :=
                    if startsWithCI nameText "soit" = true then
                      st.lastTestName
                    else testName }

/-- Embedding of extractAllResults: fold the loop body over the lines. -/
def extractAllResults (lines : List LogicalLine) :
    List BiochemistryResult :=
  (lines.foldl processLine initState).results

/-! ## Claim C8: parseRange -/

/-- A [\d,.]+ capture token: non-empty, all characters in the class. -/
def NumToken (t : List Char) : Prop :=
  t ≠ [] ∧ ∀ c ∈ t, isNumTokenChar c = true

/-- Characters in the numeric class are not whitespace, comparison signs,
parentheses or dashes. -/
theorem numTokenChar_props (c : Char) (h : isNumTokenChar c = true) :
    jsWhitespace c = false ∧ c ≠ '<' ∧ c ≠ '>' ∧ (c ≠ '(' && c ≠ ')') = true
      ∧ isDashChar c = false := by
  have h2 : (c.isDigit = true ∨ c = ',') ∨ c = '.' := by
    simpa [isNumTokenChar] using h
  rcases h2 with (hd | rfl) | rfl
  · have hb : '0' ≤ c ∧ c ≤ '9' := by simpa [Char.isDigit] using hd
    refine ⟨?_, ?_, ?_, ?_, ?_⟩
    · simp only [jsWhitespace, Bool.or_eq_false_iff, decide_eq_false_iff_not]
      and_intros <;> (rintro rfl; revert hb; decide)
    · rintro rfl; revert hb; decide
    · rintro rfl; revert hb; decide
    · simp only [Bool.and_eq_true, ne_eq, decide_eq_true_eq]
      and_intros <;> (rintro rfl; revert hb; decide)
    · simp only [isDashChar, Bool.or_eq_false_iff, decide_eq_false_iff_not]
      and_intros <;> (rintro rfl; revert hb; decide)
  · exact ⟨by decide, by decide, by decide, by decide, by decide⟩
  · exact ⟨by decide, by decide, by decide, by decide, by decide⟩

/-- The accepted separators are not in the numeric or whitespace classes,
are not parentheses, and are in the dash class. -/
theorem sep_props (sep : Char) (hsep : sep = '-' ∨ sep = '−' ∨ sep = '–') :
    isNumTokenChar sep = false ∧ jsWhitespace sep = false
      ∧ (sep ≠ '(' && sep ≠ ')') = true ∧ isDashChar sep = true := by
  rcases hsep with rfl | rfl | rfl <;>
    exact ⟨by decide, by decide, by decide, by decide⟩

/-- trimChars is the identity on texts with no leading or trailing
whitespace. -/
theorem trimChars_eq_self (l : List Char)
    (h1 : ∀ c, l.head? = some c → jsWhitespace c = false)
    (h2 : ∀ c, l.getLast? = some c → jsWhitespace c = false) :
    trimChars l = l := by
  unfold trimChars
  cases l with
  | nil => rfl
  | cons a t =>
    have ha : jsWhitespace a = false := h1 a rfl
    rw [List.dropWhile_cons_of_neg (by simp [ha])]
    cases hrev : (a :: t).reverse with
    | nil => simp at hrev
    | cons b rb =>
      have hb : jsWhitespace b = false := by
        apply h2
        rw [← List.head?_reverse, hrev]
        rfl
      rw [List.dropWhile_cons_of_neg (by simp [hb]), ← hrev,
        List.reverse_reverse]

/-- takeWhile over an all-satisfying prefix followed by a failing
character returns exactly the prefix. -/
theorem takeWhile_append_stop (p : Char → Bool) (l1 l2 : List Char)
    (x : Char) (h1 : ∀ c ∈ l1, p c = true) (hx : p x = false) :
    (l1 ++ x :: l2).takeWhile p = l1 := by
  induction l1 with
  | nil => rw [List.nil_append, List.takeWhile_cons_of_neg (by simp [hx])]
  | cons a t ih =>
    rw [List.cons_append,
      List.takeWhile_cons_of_pos (h1 a (List.mem_cons_self a t)),
      ih (fun c hc => h1 c (List.mem_cons_of_mem a hc))]

/-- dropWhile over an all-satisfying prefix followed by a failing
character returns the failing character and the rest. -/
theorem dropWhile_append_stop (p : Char → Bool) (l1 l2 : List Char)
    (x : Char) (h1 : ∀ c ∈ l1, p c = true) (hx : p x = false) :
    (l1 ++ x :: l2).dropWhile p = x :: l2 := by
  induction l1 with
  | nil => rw [List.nil_append, List.dropWhile_cons_of_neg (by simp [hx])]
  | cons a t ih =>
    rw [List.cons_append,
      List.dropWhile_cons_of_pos (h1 a (List.mem_cons_self a t)),
      ih (fun c hc => h1 c (List.mem_cons_of_mem a hc))]

/-- The cleaned text of a token prefixed by a sign character and a space
is itself: no parentheses to strip, nothing to trim. -/
theorem cleaned_sign_token (sign : Char) (t : List Char) (ht : NumToken t)
    (hsp : (sign ≠ '(' && sign ≠ ')') = true)
    (hsw : jsWhitespace sign = false) :
    parseRangeCleaned (String.mk (sign :: ' ' :: t)) = sign :: ' ' :: t := by
  obtain ⟨hne, hall⟩ := ht
  unfold parseRangeCleaned
  have htl : (String.mk (sign :: ' ' :: t)).toList = sign :: ' ' :: t := rfl
  rw [htl, List.filter_eq_self.mpr ?hf]
  case hf =>
    intro a ha
    rcases List.mem_cons.mp ha with rfl | ha
    · exact hsp
    · rcases List.mem_cons.mp ha with rfl | ha
      · decide
      · exact (numTokenChar_props a (hall a ha)).2.2.2.1
  apply trimChars_eq_self
  · intro c hc
    simp only [List.head?_cons, Option.some.injEq] at hc
    subst hc
    exact hsw
  · intro c hc
    obtain ⟨c0, tr, rfl⟩ := List.exists_cons_of_ne_nil hne
    rw [List.getLast?_cons_cons, List.getLast?_cons_cons] at hc
    have hmem : c ∈ c0 :: tr := List.mem_of_mem_getLast? hc
    exact (numTokenChar_props c (hall c hmem)).1

/-- The sign-token match of the anchored regexes, for a sign at the head
followed by a space and a numeric token filling the rest. -/
theorem signMatch_token (t : List Char) (ht : NumToken t) :
    (' ' :: t).dropWhile jsWhitespace = t
      ∧ t.takeWhile isNumTokenChar = t
      ∧ t.dropWhile isNumTokenChar = [] := by
  obtain ⟨hne, hall⟩ := ht
  refine ⟨?_, List.takeWhile_eq_self_iff.mpr hall,
    List.dropWhile_eq_nil_iff.mpr hall⟩
  rw [List.dropWhile_cons_of_pos (by decide)]
  obtain ⟨c0, tr, rfl⟩ := List.exists_cons_of_ne_nil hne
  exact List.dropWhile_cons_of_neg (by
    simp [(numTokenChar_props c0 (hall c0 (List.mem_cons_self c0 tr))).1])

/-- Unfolding equation of ltMatch on a non-empty text. -/
theorem ltMatch_cons (c : Char) (rest : List Char) :
    ltMatch (c :: rest) =
      (if c = '<' then
        (let r2 := rest.dropWhile jsWhitespace
         let tok := r2.takeWhile isNumTokenChar
         if tok ≠ [] ∧ r2.dropWhile isNumTokenChar = [] then some tok
         else none)
      else none) := rfl

/-- Unfolding equation of gtMatch on a non-empty text. -/
theorem gtMatch_cons (c : Char) (rest : List Char) :
    gtMatch (c :: rest) =
      (if c = '>' then
        (let r2 := rest.dropWhile jsWhitespace
         let tok := r2.takeWhile isNumTokenChar
         if tok ≠ [] ∧ r2.dropWhile isNumTokenChar = [] then some tok
         else none)
      else none) := rfl

/-- Unfolding equation of rangeSearch on a non-empty text. -/
theorem rangeSearch_cons (c : Char) (rest : List Char) :
    rangeSearch (c :: rest) =
      (match rangeSearchAt (c :: rest) with
      | some m => some m
      | none => rangeSearch rest) := rfl

/-- Claim C8 as amended: parseRange recognizes exactly these shapes — a
"< N" text sets only normalMax, a "> N" text sets only normalMin, an
"N sep M" text with sep an ASCII hyphen, a minus sign, or an EN dash (em
dash is NOT in the separator class) sets both bounds with commas accepted
as decimal separators, and any text matching none of the three patterns is
retained as a display string with neither bound set. -/
theorem C8_amended :
    (∀ t : List Char, NumToken t →
      parseRange (String.mk ('<' :: ' ' :: t)) =
        ⟨String.mk ('<' :: ' ' :: t), none,
          some (parseFloatM (replaceFirstChar t ',' '.'))⟩)
    ∧ (∀ t : List Char, NumToken t →
      parseRange (String.mk ('>' :: ' ' :: t)) =
        ⟨String.mk ('>' :: ' ' :: t),
          some (parseFloatM (replaceFirstChar t ',' '.')), none⟩)
    ∧ (∀ (t1 t2 : List Char) (sep : Char), NumToken t1 → NumToken t2 →
      (sep = '-' ∨ sep = '−' ∨ sep = '–') →
      parseRange (String.mk (t1 ++ sep :: t2)) =
        ⟨String.mk (t1 ++ sep :: t2),
          some (parseFloatM (replaceFirstChar t1 ',' '.')),
          some (parseFloatM (replaceFirstChar t2 ',' '.'))⟩)
    ∧ (∀ s : String, ltMatch (parseRangeCleaned s) = none →
      gtMatch (parseRangeCleaned s) = none →
      rangeSearch (parseRangeCleaned s) = none →
      parseRange s = ⟨String.mk (parseRangeCleaned s), none, none⟩) := by
  refine ⟨?_, ?_, ?_, ?_⟩
  · intro t ht
    have hclean := cleaned_sign_token '<' t ht (by decide) (by decide)
    obtain ⟨hd1, hd2, hd3⟩ := signMatch_token t ht
    have hlt : ltMatch ('<' :: ' ' :: t) = some t := by
      rw [ltMatch_cons, if_pos rfl]
      simp only [hd1, hd2, hd3]
      rw [if_pos ⟨ht.1, trivial⟩]
    simp only [parseRange, hclean, hlt]
  · intro t ht
    have hclean := cleaned_sign_token '>' t ht (by decide) (by decide)
    obtain ⟨hd1, hd2, hd3⟩ := signMatch_token t ht
    have hgt : gtMatch ('>' :: ' ' :: t) = some t := by
      rw [gtMatch_cons, if_pos rfl]
      simp only [hd1, hd2, hd3]
      rw [if_pos ⟨ht.1, trivial⟩]
    have hlt : ltMatch ('>' :: ' ' :: t) = none := by
      rw [ltMatch_cons, if_neg (by decide)]
    simp only [parseRange, hclean, hlt, hgt]
  · intro t1 t2 sep ht1 ht2 hsep
    obtain ⟨hsn, hsw, hsp, hsd⟩ := sep_props sep hsep
    obtain ⟨hne1, hall1⟩ := ht1
    obtain ⟨hne2, hall2⟩ := ht2
    obtain ⟨c1, tr1, rfl⟩ := List.exists_cons_of_ne_nil hne1
    obtain ⟨c2, tr2, rfl⟩ := List.exists_cons_of_ne_nil hne2
    have hclean : parseRangeCleaned
        (String.mk ((c1 :: tr1) ++ sep :: c2 :: tr2)) =
        (c1 :: tr1) ++ sep :: c2 :: tr2 := by
      unfold parseRangeCleaned
      rw [show (String.mk ((c1 :: tr1) ++ sep :: c2 :: tr2)).toList =
        (c1 :: tr1) ++ sep :: c2 :: tr2 from rfl]
      rw [List.filter_eq_self.mpr ?hf]
      case hf =>
        intro a ha
        rcases List.mem_append.mp ha with ha | ha
        · exact (numTokenChar_props a (hall1 a ha)).2.2.2.1
        · rcases List.mem_cons.mp ha with rfl | ha
          · exact hsp
          · exact (numTokenChar_props a (hall2 a ha)).2.2.2.1
      apply trimChars_eq_self
      · intro c hc
        simp only [List.cons_append, List.head?_cons,
          Option.some.injEq] at hc
        subst hc
        exact (numTokenChar_props _
          (hall1 _ (List.mem_cons_self c1 tr1))).1
      · intro c hc
        have hlast : ((c1 :: tr1) ++ sep :: c2 :: tr2).getLast? =
            (sep :: c2 :: tr2).getLast? :=
          List.getLast?_append_of_ne_nil _ (by simp)
        rw [hlast, List.getLast?_cons_cons] at hc
        exact (numTokenChar_props c
          (hall2 c (List.mem_of_mem_getLast? hc))).1
    have hrsAt : rangeSearchAt ((c1 :: tr1) ++ sep :: c2 :: tr2) =
        some (c1 :: tr1, c2 :: tr2) := by
      unfold rangeSearchAt
      have ht1' : ((c1 :: tr1) ++ sep :: c2 :: tr2).takeWhile
          isNumTokenChar = c1 :: tr1 :=
        takeWhile_append_stop _ _ _ _ hall1 hsn
      have hd1' : ((c1 :: tr1) ++ sep :: c2 :: tr2).dropWhile
          isNumTokenChar = sep :: c2 :: tr2 :=
        dropWhile_append_stop _ _ _ _ hall1 hsn
      rw [ht1', hd1', if_neg (by simp)]
      rw [List.dropWhile_cons_of_neg (by simp [hsw])]
      simp only [hsd, if_true]
      rw [List.dropWhile_cons_of_neg (by
        simp [(numTokenChar_props c2
          (hall2 c2 (List.mem_cons_self c2 tr2))).1])]
      rw [List.takeWhile_eq_self_iff.mpr hall2]
      rw [if_neg (by simp)]
    have hlt : ltMatch ((c1 :: tr1) ++ sep :: c2 :: tr2) = none := by
      rw [List.cons_append, ltMatch_cons, if_neg (numTokenChar_props c1
        (hall1 c1 (List.mem_cons_self c1 tr1))).2.1]
    have hgt : gtMatch ((c1 :: tr1) ++ sep :: c2 :: tr2) = none := by
      rw [List.cons_append, gtMatch_cons, if_neg (numTokenChar_props c1
        (hall1 c1 (List.mem_cons_self c1 tr1))).2.2.1]
    have hrs : rangeSearch ((c1 :: tr1) ++ sep :: c2 :: tr2) =
        some (c1 :: tr1, c2 :: tr2) := by
      rw [List.cons_append, rangeSearch_cons, ← List.cons_append, hrsAt]
    simp only [parseRange, hclean, hlt, hgt, hrs]
  · intro s hlt hgt hrs
    simp only [parseRange, hlt, hgt, hrs]

/-- Counterexample to claim C8: an EM dash (U+2014) separated pair is NOT
parsed as a min-max range — the separator class has only the hyphen, the
minus sign and the EN dash — so "1—2" is retained as a display string
with neither bound set, where the claim says min and max should be 1
and 2. -/
theorem C8_counterexample :
    parseRange "1—2" = ⟨"1—2", none, none⟩ := by decide

/-- Witness for C8 as amended: each shape applied at concrete tokens. -/
theorem C8_witness :
    parseRange (String.mk ('<' :: ' ' :: ['5'])) =
      ⟨String.mk ('<' :: ' ' :: ['5']), none,
        some (parseFloatM (replaceFirstChar ['5'] ',' '.'))⟩
    ∧ parseRange (String.mk ('>' :: ' ' :: ['7'])) =
      ⟨String.mk ('>' :: ' ' :: ['7']),
        some (parseFloatM (replaceFirstChar ['7'] ',' '.')), none⟩
    ∧ parseRange (String.mk (['3', ',', '9'] ++ '-' :: ['6', '.', '1'])) =
      ⟨String.mk (['3', ',', '9'] ++ '-' :: ['6', '.', '1']),
        some (parseFloatM (replaceFirstChar ['3', ',', '9'] ',' '.')),
        some (parseFloatM (replaceFirstChar ['6', '.', '1'] ',' '.'))⟩
    ∧ parseRange "voir conclusion" =
      ⟨String.mk (parseRangeCleaned "voir conclusion"), none, none⟩ :=
  ⟨C8_amended.1 ['5'] ⟨by decide, by decide⟩,
   C8_amended.2.1 ['7'] ⟨by decide, by decide⟩,
   C8_amended.2.2.1 ['3', ',', '9'] ['6', '.', '1'] '-'
     ⟨by decide, by decide⟩ ⟨by decide, by decide⟩ (Or.inl rfl),
   C8_amended.2.2.2 "voir conclusion" (by decide) (by decide) (by decide)⟩

/-! ## Claim C9: the soit continuation rule and lastTestName updates -/

/-- A name suffixed with " (24h)" is never empty. -/
theorem append_24h_ne_empty (s : String) : s ++ " (24h)" ≠ "" := by
  intro h
  have h2 := congrArg String.length h
  rw [String.length_append] at h2
  have h3 : (" (24h)" : String).length = 6 := rfl
  have h4 : ("" : String).length = 0 := rfl
  omega

/-- A trimmed text matching the continuation-marker regex starts with
"soit" case-insensitively. -/
theorem isSoitMarker_startsWith (s : String) (htrim : jsTrim s = s)
    (h : isSoitMarker s = true) : startsWithCI s "soit" = true := by
  unfold isSoitMarker at h
  rw [htrim] at h
  split at h
  · next rest heq =>
    unfold startsWithCI
    have hp : ("soit" : String).toList.map jsToLower = ['s', 'o', 'i', 't'] :=
      by decide
    rw [hp, heq]
    simp [List.isPrefixOf]
  · exact absurd h (by decide)

/-- Claim C9 as amended: in the per-line emission rule, a line whose name
text is exactly the continuation marker "soit" (optional colon) emits the
prior test name suffixed with " (24h)" when a prior name exists and is
skipped entirely when none does; an emitted line whose name does not start
with "soit" updates lastTestName to its resolved name; but an emitted line
whose name merely STARTS with "soit" (case-insensitively) without being a
continuation marker leaves lastTestName unchanged — the update guard
tests only the "soit" prefix, not the full marker. -/
theorem C9_amended (st : ParserState) (line : LogicalLine)
    (hrun : st.reachedEnd = false)
    (htrim : jsTrim line.nameText = line.nameText)
    (hfin : containsSub line.nameText "*** FIN DU COMPTE RENDU ***" = false)
    (hskip : shouldSkipLine line.nameText = false)
    (hval : line.valueText ≠ "")
    (v : ℚ) (hnum : parseNumericValue line.valueText = some v)
    (hunit : line.unitText ≠ "") :
    (isSoitMarker line.nameText = true → st.lastTestName ≠ "" →
      (processLine st line).results = st.results ++
        [⟨st.lastTestName ++ " (24h)", v, line.unitText, st.currentSection,
          (lineRangeInfo line).map RangeInfo.normalRange,
          (lineRangeInfo line).bind RangeInfo.normalMin,
          (lineRangeInfo line).bind RangeInfo.normalMax⟩]
      ∧ (processLine st line).lastTestName = st.lastTestName)
    ∧ (isSoitMarker line.nameText = true → st.lastTestName = "" →
      processLine st line = st)
    ∧ (startsWithCI line.nameText "soit" = false →
      resolveNonSoitName line.nameText ≠ "" →
      (processLine st line).results = st.results ++
        [⟨resolveNonSoitName line.nameText, v, line.unitText,
          st.currentSection,
          (lineRangeInfo line).map RangeInfo.normalRange,
          (lineRangeInfo line).bind RangeInfo.normalMin,
          (lineRangeInfo line).bind RangeInfo.normalMax⟩]
      ∧ (processLine st line).lastTestName =
          resolveNonSoitName line.nameText)
    ∧ (startsWithCI line.nameText "soit" = true →
      isSoitMarker line.nameText = false →
      resolveNonSoitName line.nameText ≠ "" →
      (processLine st line).results = st.results ++
        [⟨resolveNonSoitName line.nameText, v, line.unitText,
          st.currentSection,
          (lineRangeInfo line).map RangeInfo.normalRange,
          (lineRangeInfo line).bind RangeInfo.normalMin,
          (lineRangeInfo line).bind RangeInfo.normalMax⟩]
      ∧ (processLine st line).lastTestName = st.lastTestName) := by
  have hg2 : ¬(isSectionHeader line.nameText = true ∧
      line.valueText = "") := fun hc => hval hc.2
  have hg3 : ¬(line.valueText = "" ∧ line.rangeText = "" ∧
      (startsWithLit line.nameText "HÉMOGRAMME" = true ∨
        startsWithLit line.nameText "CYTOLOGIE" = true ∨
        line.nameText = "Valeurs de référence")) := fun hc => hval hc.1
  refine ⟨?_, ?_, ?_, ?_⟩
  · intro hm hl
    have hsw : startsWithCI line.nameText "soit" = true :=
      isSoitMarker_startsWith _ htrim hm
    constructor <;>
      simp [processLine, hrun, hfin, hskip, hval, hg2, hg3, hnum, hunit,
        hm, hl, hsw, append_24h_ne_empty st.lastTestName, lineRangeInfo]
  · intro hm hl
    simp [processLine, hrun, hfin, hskip, hval, hg2, hg3, hnum, hunit,
      hm, hl]
  · intro hns hn
    have hm : isSoitMarker line.nameText = false := by
      cases hmm : isSoitMarker line.nameText
      · rfl
      · exact absurd (isSoitMarker_startsWith _ htrim hmm) (by simp [hns])
    constructor <;>
      simp [processLine, hrun, hfin, hskip, hval, hg2, hg3, hnum, hunit,
        hm, hns, hn, lineRangeInfo]
  · intro hs2 hm2 hn2
    constructor <;>
      simp [processLine, hrun, hfin, hskip, hval, hg2, hg3, hnum, hunit,
        hm2, hs2, hn2, lineRangeInfo]

/-- Counterexample to claim C9: a line named "soitou" (which merely starts
with "soit" without being the continuation marker) is emitted as the test
"soitou", yet lastTestName is NOT updated to it — it stays "PREV" —
because the update guard tests only the "soit" prefix, contradicting the
claim that every emitted non-continuation line updates lastTestName. -/
theorem C9_counterexample :
    ((processLine ⟨[], "GÉNÉRAL", "PREV", false⟩
        ⟨0, [], "soitou", "1", "g", ""⟩).results.map
          BiochemistryResult.testName = ["soitou"])
    ∧ (processLine ⟨[], "GÉNÉRAL", "PREV", false⟩
        ⟨0, [], "soitou", "1", "g", ""⟩).lastTestName = "PREV" := by
  constructor
  · rfl
  · rfl

/-- Witness for C9 as amended: a "soit :" line after a prior test emits
"CRÉATININE (24h)" and keeps lastTestName, and with no prior test the
same line is skipped leaving the state untouched. -/
theorem C9_witness :
    ((processLine ⟨[], "GÉNÉRAL", "CRÉATININE", false⟩
        ⟨0, [], "soit :", "2", "g", ""⟩).results.map
          BiochemistryResult.testName = ["CRÉATININE (24h)"])
    ∧ (processLine ⟨[], "GÉNÉRAL", "CRÉATININE", false⟩
        ⟨0, [], "soit :", "2", "g", ""⟩).lastTestName = "CRÉATININE"
    ∧ processLine ⟨[], "GÉNÉRAL", "", false⟩
        ⟨0, [], "soit :", "2", "g", ""⟩ = ⟨[], "GÉNÉRAL", "", false⟩ := by
  have h := C9_amended ⟨[], "GÉNÉRAL", "CRÉATININE", false⟩
    ⟨0, [], "soit :", "2", "g", ""⟩ rfl (by decide) (by decide) (by decide)
    (by decide) _ rfl (by decide)
  have h0 := C9_amended ⟨[], "GÉNÉRAL", "", false⟩
    ⟨0, [], "soit :", "2", "g", ""⟩ rfl (by decide) (by decide) (by decide)
    (by decide) _ rfl (by decide)
  refine ⟨?_, (h.1 (by decide) (by decide)).2, h0.2.1 (by decide) rfl⟩
  rw [(h.1 (by decide) (by decide)).1]
  rfl

/-! ## Analysis utilities (src/utils/analysisUtils.ts) and claim C10 -/

/-- The global /\*\*/g removal: non-overlapping star pairs, left to
right. -/
def removeStarStar : List Char → List Char
  | '*' :: '*' :: rest => removeStarStar rest
  | c :: rest => c :: removeStarStar rest
  | [] => []

/-- Embedding of normalizeTestName: trim, upper-case, remove "**" pairs,
collapse whitespace runs to single spaces. -/
def normalizeTestName (name : String) : String :=
  String.mk (collapseWs (removeStarStar ((jsTrim name).toList.map jsToUpper)))

/-- One raw item of the array input branch of analyzeBiochemistryData:
testName (empty when absent), a value that is either a JS number (NaN
modelled as `none`) or a string to be parsed, the unit, and the optional
extracted bounds. -/
structure RawResultItem where
  testName : String
  value : Sum (Option ℚ) String
  unit : String
  normalMin : Option (Option ℚ) := none
  normalMax : Option (Option ℚ) := none
  normalRange : Option String := none
deriving DecidableEq, Repr

/-- The numeric value of a raw item: a number as-is, a string through
parseFloat with the first comma replaced by a dot. -/
def itemValue (it : RawResultItem) : Option ℚ :=
  match it.value with
  | .inl q => q
  | .inr s => parseFloatM (replaceFirstChar s.toList ',' '.')

/-- The isAbnormal computation: a defined non-NaN bound that the value
violates (NaN comparisons are false). -/
def rawItemAbnormal (value : ℚ) (nmin nmax : Option (Option ℚ)) : Bool :=
  (match nmin with
   | some (some m) => decide (value < m)
   | _ => false) ||
  (match nmax with
   | some (some m) => decide (value > m)
   | _ => false)

/-- The per-item computation of the array branch: skip on empty name or
NaN value, otherwise the normalized key and the BiochemistryValue
record. -/
def analyzeItem (it : RawResultItem) : Option (String × BiochemistryValue) :=
  if it.testName = "" then none
  else
    match itemValue it with
    | none => none
    | some v =>
      some (normalizeTestName it.testName,
        ⟨some v, it.unit, it.normalRange, it.normalMin, it.normalMax,
          rawItemAbnormal v it.normalMin it.normalMax, none⟩)

/-- JS object key assignment on the insertion-ordered map: an existing key
keeps its position and gets the new value, a fresh key is appended. -/
def objSet : List (String × BiochemistryValue) → String →
    BiochemistryValue → List (String × BiochemistryValue)
  | [], k, v => [(k, v)]
  | p :: rest, k, v =>
    if p.1 = k then (k, v) :: rest else p :: objSet rest k v

/-- Embedding of the array input branch of analyzeBiochemistryData (the
pipeline path; the legacy key-value object branch is a separate
compatibility path not modelled here). -/
def analyzeBiochemistryData (rawData : List RawResultItem) :
    List (String × BiochemistryValue) :=
  rawData.foldl (fun analyzed it =>
    match analyzeItem it with
    | none => analyzed
    | some kv => objSet analyzed kv.1 kv.2) []

/-- Lookup after an object assignment: the assigned key maps to the new
value, others are unchanged. -/
theorem lookup_objSet (m : List (String × BiochemistryValue)) (k : String)
    (v : BiochemistryValue) (q : String) :
    (objSet m k v).lookup q = if q = k then some v else m.lookup q := by
  induction m with
  | nil =>
    by_cases h : q = k
    · simp [objSet, List.lookup, h]
    · simp [objSet, List.lookup, h, beq_eq_false_iff_ne.mpr h]
  | cons p rest ih =>
    by_cases hp : p.1 = k
    · simp only [objSet, if_pos hp]
      by_cases h : q = k
      · simp [List.lookup, h]
      · have hq : (q == p.1) = false :=
          beq_eq_false_iff_ne.mpr (by rw [hp]; exact h)
        have hk2 : (q == k) = false := beq_eq_false_iff_ne.mpr h
        simp [List.lookup, hq, hk2, h]
    · simp only [objSet, if_neg hp]
      by_cases hq : q = p.1
      · have h2 : ¬(q = k) := by rw [hq]; exact hp
        simp [List.lookup, beq_iff_eq, hq, h2, hp]
      · have hq2 : (q == p.1) = false := beq_eq_false_iff_ne.mpr hq
        simp [List.lookup, hq2, hq, ih]

/-- Key membership after an object assignment. -/
theorem mem_keys_objSet (m : List (String × BiochemistryValue))
    (k : String) (v : BiochemistryValue) (a : String) :
    a ∈ (objSet m k v).map Prod.fst ↔ a = k ∨ a ∈ m.map Prod.fst := by
  induction m with
  | nil => simp [objSet]
  | cons p rest ih =>
    by_cases hp : p.1 = k
    · simp only [objSet, if_pos hp]
      simp [hp]
    · simp only [objSet, if_neg hp]
      simp [ih]
      tauto

/-- Object assignment preserves key distinctness. -/
theorem nodup_keys_objSet (m : List (String × BiochemistryValue))
    (k : String) (v : BiochemistryValue)
    (h : (m.map Prod.fst).Nodup) :
    ((objSet m k v).map Prod.fst).Nodup := by
  induction m with
  | nil => simp [objSet]
  | cons p rest ih =>
    simp only [List.map_cons, List.nodup_cons] at h
    by_cases hp : p.1 = k
    · simp only [objSet, if_pos hp, List.map_cons, List.nodup_cons]
      exact ⟨by rw [← hp]; exact h.1, h.2⟩
    · simp only [objSet, if_neg hp, List.map_cons, List.nodup_cons]
      refine ⟨?_, ih h.2⟩
      rw [mem_keys_objSet]
      rintro (h1 | h1)
      · exact hp h1
      · exact h.1 h1

/-- The folded map always has distinct keys. -/
theorem analyze_keys_nodup (items : List RawResultItem)
    (acc : List (String × BiochemistryValue))
    (hacc : (acc.map Prod.fst).Nodup) :
    ((items.foldl (fun analyzed it =>
      match analyzeItem it with
      | none => analyzed
      | some kv => objSet analyzed kv.1 kv.2) acc).map Prod.fst).Nodup := by
  induction items generalizing acc with
  | nil => simpa using hacc
  | cons it rest ih =>
    simp only [List.foldl_cons]
    cases h : analyzeItem it with
    | none => exact ih acc hacc
    | some kv => exact ih _ (nodup_keys_objSet acc kv.1 kv.2 hacc)

/-- Claim C10: when several raw items normalize to the same test name,
analyzeBiochemistryData keeps exactly the last valid occurrence in input
order — the returned keyed map has one entry per normalized name, and the
entry under any name is the value built from the last valid item mapping
to it. -/
theorem C10_last_occurrence_wins (items : List RawResultItem)
    (name : String) :
    ((analyzeBiochemistryData items).map Prod.fst).Nodup
    ∧ (analyzeBiochemistryData items).lookup name =
      (((items.filterMap analyzeItem).filter
          (fun p => p.1 = name)).getLast?).map Prod.snd := by
  constructor
  · exact analyze_keys_nodup items [] (by simp)
  · induction items using List.reverseRecOn with
    | nil => simp [analyzeBiochemistryData]
    | append_singleton l it ih =>
      unfold analyzeBiochemistryData at ih ⊢
      rw [List.foldl_append, List.foldl_cons, List.foldl_nil,
        List.filterMap_append]
      cases h : analyzeItem it with
      | none =>
        simp only [h]
        rw [show List.filterMap analyzeItem [it] = [] by
          simp [List.filterMap, h]]
        simpa using ih
      | some kv =>
        simp only [h]
        rw [show List.filterMap analyzeItem [it] = [kv] by
          simp [List.filterMap, h]]
        rw [lookup_objSet]
        by_cases hk : name = kv.1
        · rw [if_pos hk]
          rw [List.filter_append]
          rw [show List.filter (fun p => decide (p.1 = name)) [kv] = [kv] by
            simp [List.filter, hk.symm]]
          rw [List.getLast?_concat]
          rfl
        · rw [if_neg hk]
          rw [List.filter_append]
          have hkf : (decide (kv.1 = name)) = false :=
            decide_eq_false (fun h2 => hk h2.symm)
          rw [show List.filter (fun p => decide (p.1 = name)) [kv] = [] by
            simp [List.filter, hkf]]
          rw [List.append_nil]
          exact ih

end Bio
